import Mathlib

/-! Verification of the Exordium music-library catalog and its
library-synchronization engine.

The repository sources available are src/exordium/tests.py,
src/exordium/views.py and auxiliary files; the Django model layer
(models.py, holding the Artist/Album/Song rows and the App.add/App.update
reconciler) is not among them, so the reconciler below is modelled from the
specification (spec.md, sections 3 and 4.2), with the tests of
src/exordium/tests.py fixing behaviour the spec leaves open (move
detection).  The search view is embedded directly from
src/exordium/views.py. -/

namespace Exordium

/-- Severity of a line in the run report: the Run Report is an ordered log
of (severity, message) pairs surfaced to operators. -/
inductive Status where
  | info
  | success
  | error
  deriving Repr, DecidableEq

/-- Artist row of the catalog store.  The field pfx models the stored
leading-article column of the Django Artist model (a word such as "The");
various marks the "Various" sentinel artist. -/
structure Artist where
  id : Nat
  name : String
  pfx : String
  various : Bool
  deriving Repr, DecidableEq

/-- Album row of the catalog store: owning artist, name and the
miscellaneous flag marking the synthetic per-artist "non-album tracks"
bucket. -/
structure Album where
  id : Nat
  artistId : Nat
  name : String
  miscellaneous : Bool
  deriving Repr, DecidableEq

/-- Song row of the catalog store, keyed by library-relative filename, with
the resolved primary and secondary-role artist references and the fields
the tests compare (title, year, tracknum, sha256sum, filetype, bitrate,
mode, size, length, time_added, time_updated). -/
structure Song where
  id : Nat
  filename : String
  artistId : Nat
  groupId : Option Nat
  conductorId : Option Nat
  composerId : Option Nat
  albumId : Nat
  title : String
  year : Nat
  tracknum : Nat
  sha256sum : String
  filetype : String
  bitrate : Nat
  mode : String
  size : Nat
  length : Nat
  time_added : Nat
  time_updated : Nat
  deriving Repr, DecidableEq

/-- The persisted entity graph operated on by the reconciler. -/
structure Catalog where
  artists : List Artist
  albums : List Album
  songs : List Song
  deriving Repr, DecidableEq

/-- One successfully scanned file: its library-relative path, the textual
tags extracted from it, its content fingerprint and its container info.
The track tag is kept raw (a string of the form "N" or "N/M"). -/
structure FileRec where
  path : String
  artist : String
  group : String
  conductor : String
  composer : String
  album : String
  title : String
  track : String
  year : Nat
  sha256 : String
  filetype : String
  bitrate : Nat
  mode : String
  size : Nat
  length : Nat
  deriving Repr, DecidableEq

/-! ## Track-number parsing (Tag Extractor, spec section 4.1)

Modelled from the spec: track-number parsing accepts "N" or "N/M" forms;
non-numeric or empty values normalize to 0 and never raise.  models.py is
not among the sources, so the parsing is reconstructed from those words
(the "N/M" form keeps the part before the first slash, as the tests
test_add_mp3_total_track_tag_check and test_add_mp3_empty_track_tag pin
down). -/

/-- Numeric value of a decimal digit character. -/
def digitVal (c : Char) : Nat := c.toNat - 48

/-- Strict decimal parse: some value for a non-empty all-digit string,
none otherwise (the model of Python's int() raising on anything else). -/
def parseNatStrict (s : List Char) : Option Nat :=
  if s ≠ [] ∧ s.all Char.isDigit then
    some (s.foldl (fun acc c => acc * 10 + digitVal c) 0)
  else none

/-- Modelled from the spec: track-number parsing (section 4.1).  The part
before the first slash is parsed as a decimal number; empty or non-numeric
input becomes 0. -/
def parseTrackTag (s : String) : Nat :=
  match parseNatStrict (s.data.takeWhile (fun c => c != '/')) with
  | some n => n
  | none => 0

/-- Decimal digit character for a value below ten. -/
def digitChar (d : Nat) : Char :=
  match d with
  | 0 => '0' | 1 => '1' | 2 => '2' | 3 => '3' | 4 => '4'
  | 5 => '5' | 6 => '6' | 7 => '7' | 8 => '8' | _ => '9'

/-- Little-endian digit list of a natural number. -/
def natDigitsRev (n : Nat) : List Char :=
  if h : n < 10 then [digitChar n]
  else digitChar (n % 10) :: natDigitsRev (n / 10)
  decreasing_by exact Nat.div_lt_self (by omega) (by omega)

/-- Decimal rendering of a natural number, the canonical "N" form. -/
def renderNat (n : Nat) : String := ⟨(natDigitsRev n).reverse⟩

/-! ## Name Normalizer (spec section 4.3) -/

/-- Lower-cases a string character by character (the model of Python's
lower(), written over the character list so that it evaluates inside the
kernel). -/
def lowerStr (s : String) : String := ⟨s.data.map Char.toLower⟩

/-- First n characters of a string. -/
def strTake (s : String) (n : Nat) : String := ⟨s.data.take n⟩

/-- String without its first n characters. -/
def strDrop (s : String) (n : Nat) : String := ⟨s.data.drop n⟩

/-- Modelled from the spec: the fixed ordered list of recognized leading
articles (section 4.3 names "The" and "Die" as examples; the exact
membership is not in the available sources).  Ordered longest first so the
longest article matches first. -/
def leadingArticles : List String :=
  ["Eine", "The", "Die", "Das", "Ein", "Les", "An", "Le", "La", "A"]

/-- Modelled from the spec: the Name Normalizer (section 4.3).  Splits a
raw name into a leading article and a base name: case-insensitive match of
a recognized article followed by a space, longest article first, keeping
the article as observed (the store-as-observed choice of the design
notes); when nothing would remain after the article, or no article
matches, the result is (empty, original string unchanged). -/
def splitLeadingArticle (raw : String) : String × String :=
  match leadingArticles.find? (fun art =>
      decide (art.length + 1 < raw.length) &&
      (lowerStr (strTake raw (art.length + 1)) == lowerStr art ++ " ")) with
  | some art => (strTake raw art.length, strDrop raw (art.length + 1))
  | none => ("", raw)

/-! ## Artist resolution (spec section 4.2) -/

/-- Largest primary key among the artist rows (0 when there are none);
fresh rows are keyed one above it. -/
def maxArtistId (artists : List Artist) : Nat :=
  artists.foldl (fun m a => max m a.id) 0

/-- Modelled from the spec: artist resolution (section 4.2).  The raw
artist string is split into (article, base); the artist is looked up by
case-insensitive base name and created when absent; on a hit the stored
article is overwritten only when the newly observed one is non-empty and
the stored one is empty (the sticky-prefix policy). -/
def resolveArtist (artists : List Artist) (raw : String) : Nat × List Artist :=
  let pb := splitLeadingArticle raw
  match artists.find? (fun a => lowerStr a.name == lowerStr pb.2) with
  | some a =>
      if a.pfx = "" ∧ pb.1 ≠ "" then
        (a.id, artists.map (fun b => if b.id = a.id then { b with pfx := pb.1 } else b))
      else (a.id, artists)
  | none =>
      let nid := maxArtistId artists + 1
      (nid, artists ++ [{ id := nid, name := pb.2, pfx := pb.1, various := false }])

/-- Modelled from the spec: a secondary-role reference (group, conductor,
composer) is resolved exactly like the primary artist; an empty raw tag
means the role is absent. -/
def resolveRole (artists : List Artist) (raw : String) : Option Nat × List Artist :=
  if raw = "" then (none, artists)
  else
    let r := resolveArtist artists raw
    (some r.1, r.2)

/-! ## Album keys and the scan phase (spec section 4.2) -/

/-- Identity a song's metadata assigns to its album after the run: the
per-artist miscellaneous bucket for an empty album tag, or a regular album
name. -/
inductive AlbumKey where
  | misc (artistId : Nat)
  | named (name : String)
  deriving Repr, DecidableEq

/-- One song coming out of the scan phase: the row to keep, the album key
it must live under, and the album row it previously belonged to (none for
a branch-new song). -/
structure SongEntry where
  song : Song
  key : AlbumKey
  prev : Option Nat
  deriving Repr, DecidableEq

/-- Album key derived from a freshly extracted tag set. -/
def keyOfTag (albumTag : String) (artistId : Nat) : AlbumKey :=
  if albumTag = "" then .misc artistId else .named albumTag

/-- Album key of a song whose file did not change: derived from its
current album row, so the file is not re-read (the fingerprint
short-circuit of the scan phase). -/
def keyOfCatalog (c : Catalog) (s : Song) : AlbumKey :=
  match c.albums.find? (fun al => al.id == s.albumId) with
  | some al => if al.miscellaneous then .misc s.artistId else .named al.name
  | none => .misc s.artistId

/-- Song built from a newly seen file. -/
def songFromFile (f : FileRec) (id aid : Nat) (g cd cp : Option Nat) (now : Nat) : Song :=
  { id := id, filename := f.path, artistId := aid, groupId := g, conductorId := cd,
    composerId := cp, albumId := 0, title := f.title, year := f.year,
    tracknum := parseTrackTag f.track, sha256sum := f.sha256, filetype := f.filetype,
    bitrate := f.bitrate, mode := f.mode, size := f.size, length := f.length,
    time_added := now, time_updated := now }

/-- Song row re-extracted in place for a changed file: primary key and
time_added survive, everything tag-derived is replaced and time_updated is
stamped. -/
def songFromUpdate (s : Song) (f : FileRec) (aid : Nat) (g cd cp : Option Nat) (now : Nat) : Song :=
  { s with
    artistId := aid, groupId := g, conductorId := cd, composerId := cp,
    title := f.title, year := f.year, tracknum := parseTrackTag f.track,
    sha256sum := f.sha256, filetype := f.filetype, bitrate := f.bitrate,
    mode := f.mode, size := f.size, length := f.length, time_updated := now }

/-- Accumulator of the scan phase. -/
structure SyncAcc where
  entries : List SongEntry
  artists : List Artist
  gone : List Song
  nextSongId : Nat
  report : List (Status × String)
  deriving Repr, DecidableEq

/-- Modelled from the spec: the scan phase for one file (section 4.2).  A
known path with an unchanged fingerprint is skipped outright; during an
update a known path with a changed fingerprint is re-extracted in place; an
unknown path whose fingerprint matches a vanished catalog song is a move
and only the stored filename changes (behaviour fixed by
test_update_song_move in src/exordium/tests.py); any other unknown path
becomes a new song. -/
def processFile (isUpdate : Bool) (now : Nat) (c : Catalog) (acc : SyncAcc) (f : FileRec) : SyncAcc :=
  match c.songs.find? (fun s => s.filename == f.path) with
  | some s =>
      if isUpdate ∧ s.sha256sum ≠ f.sha256 then
        let r1 := resolveArtist acc.artists f.artist
        let r2 := resolveRole r1.2 f.group
        let r3 := resolveRole r2.2 f.conductor
        let r4 := resolveRole r3.2 f.composer
        { acc with
          entries := acc.entries ++
            [⟨songFromUpdate s f r1.1 r2.1 r3.1 r4.1 now, keyOfTag f.album r1.1, some s.albumId⟩],
          artists := r4.2,
          report := acc.report ++ [(Status.info, "Updated: " ++ f.path)] }
      else
        { acc with entries := acc.entries ++ [⟨s, keyOfCatalog c s, some s.albumId⟩] }
  | none =>
      match acc.gone.find? (fun g => g.sha256sum == f.sha256) with
      | some g =>
          { acc with
            entries := acc.entries ++
              [⟨{ g with filename := f.path }, keyOfCatalog c g, some g.albumId⟩],
            gone := acc.gone.filter (fun g2 => g2.id != g.id),
            report := acc.report ++ [(Status.info, "Moved: " ++ f.path)] }
      | none =>
          let r1 := resolveArtist acc.artists f.artist
          let r2 := resolveRole r1.2 f.group
          let r3 := resolveRole r2.2 f.conductor
          let r4 := resolveRole r3.2 f.composer
          { acc with
            entries := acc.entries ++
              [⟨songFromFile f acc.nextSongId r1.1 r2.1 r3.1 r4.1 now, keyOfTag f.album r1.1, none⟩],
            artists := r4.2,
            nextSongId := acc.nextSongId + 1,
            report := acc.report ++ [(Status.info, "Added: " ++ f.path)] }

/-- Catalog songs whose path no longer exists on disk; only an update pass
considers them (candidates for moves and deletions). -/
def goneSongs (isUpdate : Bool) (c : Catalog) (fs : List FileRec) : List Song :=
  if isUpdate then c.songs.filter (fun s => !(fs.any (fun f => f.path == s.filename))) else []

/-- Catalog songs an add pass leaves exactly as they are: an add only scans
never-seen paths and never deletes, so songs whose path is not on disk stay
in the catalog untouched. -/
def keptSongs (isUpdate : Bool) (c : Catalog) (fs : List FileRec) : List SongEntry :=
  if isUpdate then []
  else (c.songs.filter (fun s => !(fs.any (fun f => f.path == s.filename)))).map
    (fun s => ⟨s, keyOfCatalog c s, some s.albumId⟩)

/-- Modelled from the spec: whether a run has any reconciliation work at
all; when false the run only reports an informational "nothing to do"
marker and leaves the catalog untouched (section 4.2, determinism and
idempotence). -/
def hasWork (isUpdate : Bool) (c : Catalog) (fs : List FileRec) : Bool :=
  fs.any (fun f =>
    match c.songs.find? (fun s => s.filename == f.path) with
    | some s => isUpdate && decide (s.sha256sum ≠ f.sha256)
    | none => true) ||
  (isUpdate && c.songs.any (fun s => !(fs.any (fun f => f.path == s.filename))))

/-! ## Album ownership derivation, merge and split (spec section 4.2) -/

/-- Modelled from the spec: the "Various" sentinel artist is guaranteed to
exist before ownership derivation (the fixture initial_data.json pre-seeds
it; section 3 makes it a lazily created singleton). -/
def ensureVarious (artists : List Artist) : List Artist :=
  if artists.any (fun a => a.various) then artists
  else artists ++ [{ id := maxArtistId artists + 1, name := "Various", pfx := "", various := true }]

/-- Primary key of the "Various" sentinel artist. -/
def variousId (artists : List Artist) : Nat :=
  match artists.find? (fun a => a.various) with
  | some a => a.id
  | none => 0

/-- Adds one scanned song to the per-key grouping. -/
def insertEntry (gs : List (AlbumKey × List SongEntry)) (e : SongEntry) :
    List (AlbumKey × List SongEntry) :=
  if gs.any (fun g => decide (g.1 = e.key)) then
    gs.map (fun g => if g.1 = e.key then (g.1, g.2 ++ [e]) else g)
  else gs ++ [(e.key, [e])]

/-- Groups the scanned songs by album key, in first-seen order. -/
def groupify (es : List SongEntry) : List (AlbumKey × List SongEntry) :=
  es.foldl insertEntry []

/-- Modelled from the spec: album ownership derivation (section 4.2): a
single distinct primary artist owns the album; more than one escalates
ownership to the "Various" sentinel; a miscellaneous bucket is always owned
by the artist it exists for. -/
def ownerOf (vid : Nat) (k : AlbumKey) (es : List SongEntry) : Nat :=
  match k with
  | .misc aid => aid
  | .named _ =>
      match (es.map (fun e => e.song.artistId)).dedup with
      | [a] => a
      | _ => vid

/-- Modelled from the spec: the fixed naming template of the per-artist
synthetic non-album bucket (App.non_album_format_str in the original;
the exact literal is not among the sources). -/
def nonAlbumName (artistName : String) : String := "Non-Album Tracks: " ++ artistName

/-- Display name of an artist row by primary key. -/
def artistNameOf (artists : List Artist) (aid : Nat) : String :=
  match artists.find? (fun a => a.id == aid) with
  | some a => a.name
  | none => ""

/-- Name the album serving an album key must carry. -/
def keyName (artists : List Artist) (k : AlbumKey) : String :=
  match k with
  | .misc aid => nonAlbumName (artistNameOf artists aid)
  | .named n => n

/-- Whether an album key denotes the miscellaneous bucket. -/
def keyMisc (k : AlbumKey) : Bool :=
  match k with
  | .misc _ => true
  | .named _ => false

/-- Album rows of the previous catalog that contained at least one song of
the group: the candidates to keep their primary key across the run
(section 4.2 merge/split tie-break). -/
def candAlbums (c : Catalog) (es : List SongEntry) : List Album :=
  c.albums.filter (fun a => es.any (fun e => e.prev == some a.id))

/-- Candidate with the smallest primary key (the earlier row wins a
merge). -/
def pickMinId (cands : List Album) : Option Album :=
  match cands with
  | [] => none
  | a :: rest => some (rest.foldl (fun b x => if x.id < b.id then x else b) a)

/-- Largest primary key among the album rows. -/
def maxAlbumId (albums : List Album) : Nat :=
  albums.foldl (fun m a => max m a.id) 0

/-- Largest primary key among the song rows. -/
def maxSongId (songs : List Song) : Nat :=
  songs.foldl (fun m s => max m s.id) 0

/-- Accumulator of the first album-assignment pass. -/
structure AssignAcc where
  pairs : List ((AlbumKey × List SongEntry) × Option Nat)
  taken : List Nat
  deriving Repr, DecidableEq

/-- One step of the first assignment pass for one group. -/
def pass1step (c : Catalog) (artists : List Artist) (acc : AssignAcc)
    (g : AlbumKey × List SongEntry) : AssignAcc :=
  match pickMinId ((candAlbums c g.2).filter (fun a =>
      a.name == keyName artists g.1 && a.miscellaneous == keyMisc g.1 &&
      !(acc.taken.contains a.id))) with
  | some a => { pairs := acc.pairs ++ [(g, some a.id)], taken := acc.taken ++ [a.id] }
  | none => { pairs := acc.pairs ++ [(g, none)], taken := acc.taken }

/-- Pass one of album assignment: a group keeps the previous album row
with the smallest primary key whose name and miscellaneous flag it
preserves — the subset that does not trigger a rename keeps the original
row (section 4.2). -/
def assignPass1 (c : Catalog) (artists : List Artist)
    (groups : List (AlbumKey × List SongEntry)) : AssignAcc :=
  groups.foldl (pass1step c artists) ⟨[], []⟩

/-- Accumulator of the second album-assignment pass. -/
structure Assign2Acc where
  out : List ((AlbumKey × List SongEntry) × Nat)
  taken : List Nat
  fresh : Nat
  deriving Repr, DecidableEq

/-- One step of the second assignment pass for one annotated group. -/
def pass2step (c : Catalog) (acc : Assign2Acc)
    (gp : (AlbumKey × List SongEntry) × Option Nat) : Assign2Acc :=
  match gp.2 with
  | some k => { acc with out := acc.out ++ [(gp.1, k)] }
  | none =>
      match pickMinId ((candAlbums c gp.1.2).filter (fun a => !(acc.taken.contains a.id))) with
      | some a =>
          { out := acc.out ++ [(gp.1, a.id)], taken := acc.taken ++ [a.id], fresh := acc.fresh }
      | none =>
          { out := acc.out ++ [(gp.1, acc.fresh)], taken := acc.taken, fresh := acc.fresh + 1 }

/-- Pass two: a still-unassigned group falls back to the not-yet-claimed
previous row with the smallest primary key, renaming or re-parenting it;
failing that a brand-new row is created one key above the largest existing
one. -/
def assignPass2 (c : Catalog) (p1 : AssignAcc) (fresh0 : Nat) :
    List ((AlbumKey × List SongEntry) × Nat) :=
  (p1.pairs.foldl (pass2step c) ⟨[], p1.taken, fresh0⟩).out

/-- Album row written for an assigned group. -/
def buildAlbum (artists : List Artist) (vid : Nat) (g : AlbumKey × List SongEntry) (i : Nat) :
    Album :=
  { id := i, artistId := ownerOf vid g.1 g.2, name := keyName artists g.1,
    miscellaneous := keyMisc g.1 }

/-- Final album and song lists: one album row per surviving group, each
song re-pointed at the album serving its group; previous albums serving no
group (those whose last song went away) are dropped. -/
def applyAssignment (artists : List Artist) (vid : Nat)
    (asg : List ((AlbumKey × List SongEntry) × Nat)) : List Album × List Song :=
  (asg.map (fun gi => buildAlbum artists vid gi.1 gi.2),
   asg.flatMap (fun gi => gi.1.2.map (fun e => { e.song with albumId := gi.2 })))

/-- Whether an artist row is still referenced after a run: by some song in
any role (primary, group, conductor, composer) or as the owner of an
album. -/
def referencedBy (albums : List Album) (songs : List Song) (a : Artist) : Bool :=
  songs.any (fun s => s.artistId == a.id || s.groupId == some a.id ||
    s.conductorId == some a.id || s.composerId == some a.id) ||
  albums.any (fun al => al.artistId == a.id)

/-- Modelled from the spec: the deletion cascade's artist cleanup — after
a run an artist row is kept only when it is the "Various" sentinel or is
still referenced in some role (sections 3 and 4.2). -/
def gcArtists (artists : List Artist) (albums : List Album) (songs : List Song) : List Artist :=
  artists.filter (fun a => a.various || referencedBy albums songs a)

/-- Scan phase of a run: folds every on-disk file through processFile,
starting from the kept and vanished catalog songs. -/
def syncPhase (isUpdate : Bool) (now : Nat) (c : Catalog) (fs : List FileRec) : SyncAcc :=
  fs.foldl (processFile isUpdate now c)
    ⟨keptSongs isUpdate c fs, c.artists, goneSongs isUpdate c fs, maxSongId c.songs + 1, []⟩

/-- Album phase of a run: group the scanned songs by key and assign each
group its surviving or brand-new album row. -/
def albumPhase (c : Catalog) (artists1 : List Artist) (entries : List SongEntry) :
    List ((AlbumKey × List SongEntry) × Nat) :=
  assignPass2 c (assignPass1 c artists1 (groupify entries)) (maxAlbumId c.albums + 1)

/-- Modelled from the spec: one reconciliation run (section 4.2).  With
isUpdate the full Update (deletions, modifications and moves included);
without it the Add restriction, which scans only never-seen paths.  A run
with nothing to do reports a single informational marker and leaves the
catalog untouched. -/
def runScan (isUpdate : Bool) (now : Nat) (c : Catalog) (fs : List FileRec) :
    Catalog × List (Status × String) :=
  if hasWork isUpdate c fs then
    let acc := syncPhase isUpdate now c fs
    let artists1 := ensureVarious acc.artists
    let res := applyAssignment artists1 (variousId artists1) (albumPhase c artists1 acc.entries)
    (⟨gcArtists artists1 res.1 res.2, res.1, res.2⟩,
     acc.report ++ acc.gone.map (fun s => (Status.info, "Deleted: " ++ s.filename)))
  else (c, [(Status.info, "Nothing to do!")])

/-- Entry operation Add: scans only previously-unseen paths. -/
def App.add (now : Nat) (c : Catalog) (fs : List FileRec) : Catalog × List (Status × String) :=
  runScan false now c fs

/-- Entry operation Update: the full reconciliation, detecting
modifications, moves and deletions too. -/
def App.update (now : Nat) (c : Catalog) (fs : List FileRec) : Catalog × List (Status × String) :=
  runScan true now c fs

/-- Catalog as set up by the initial_data fixture of the tests: just the
pre-seeded "Various" sentinel artist. -/
def initialCatalog : Catalog :=
  ⟨[{ id := 1, name := "Various", pfx := "", various := true }], [], []⟩

/-! ## The search view (src/exordium/views.py, SearchView.get_context_data) -/

/-- Sanitizes the search string exactly as SearchView.get_context_data
does (src/exordium/views.py lines 83 to 90): when a newline occurs the
part before the first newline is kept, then likewise for a carriage
return, and a string longer than 80 characters is cut to 80. -/
def sanitizeSearch (q : List Char) : List Char :=
  let q1 := if '\n' ∈ q then q.takeWhile (fun c => c != '\n') else q
  let q2 := if '\r' ∈ q1 then q1.takeWhile (fun c => c != '\r') else q1
  if 80 < q2.length then q2.take 80 else q2

/-- Case-insensitive substring match: the model of the Django icontains
lookup the search view filters with. -/
def icontains (hay : String) (needle : List Char) : Bool :=
  decide ((needle.map Char.toLower) <:+: (hay.data.map Char.toLower))

/-- Context produced by the search view: the three result sets, the
found_results flag and the sanitized query echoed back. -/
structure SearchContext where
  artistResults : List String
  albumResults : List String
  songResults : List String
  found_results : Bool
  q : List Char
  deriving Repr, DecidableEq

/-- Embeds SearchView.get_context_data (src/exordium/views.py lines 80 to
121): the sanitized query is matched case-insensitively as a substring
against artist names, album names and song titles (each ordered by name);
each non-empty result set raises its show flag, and found_results is the
disjunction of the three flags. -/
def searchContext (artistNames albumNames songTitles : List String) (qRaw : List Char) :
    SearchContext :=
  let search := sanitizeSearch qRaw
  let artists := (artistNames.filter (fun n => icontains n search)).mergeSort
    (fun a b => decide (a ≤ b))
  let show_artists := decide (0 < artists.length)
  let albums := (albumNames.filter (fun n => icontains n search)).mergeSort
    (fun a b => decide (a ≤ b))
  let show_albums := decide (0 < albums.length)
  let songs := (songTitles.filter (fun n => icontains n search)).mergeSort
    (fun a b => decide (a ≤ b))
  let show_songs := decide (0 < songs.length)
  { artistResults := artists, albumResults := albums, songResults := songs,
    found_results := show_artists || show_albums || show_songs, q := search }

/-! ## Concrete scenario inputs for the run-level theorems -/

/-- Shorthand for a scanned file record; the container fields mirror the
silence-vbr fixture the tests copy from. -/
def scanFile (p a al t sha : String) : FileRec :=
  { path := p, artist := a, group := "", conductor := "", composer := "",
    album := al, title := t, track := "1", year := 2000, sha256 := sha,
    filetype := "mp3", bitrate := 128, mode := "VBR", size := 100, length := 60 }

/-- Fully parametric scanned file record, used by the move scenario. -/
def scanFileFull (p a al t track sha ftype md : String) (year bitrate size len : Nat) :
    FileRec :=
  { path := p, artist := a, group := "", conductor := "", composer := "",
    album := al, title := t, track := track, year := year, sha256 := sha,
    filetype := ftype, bitrate := bitrate, mode := md, size := size, length := len }

/-- Catalog holding two previously-distinct album rows that share the same
(owning artist, name) key, each with one song on disk: the merge
scenario's starting point. -/
def mergeCatalog : Catalog :=
  ⟨[{ id := 1, name := "Various", pfx := "", various := true },
    { id := 2, name := "Artist 1", pfx := "", various := false }],
   [{ id := 1, artistId := 2, name := "Album", miscellaneous := false },
    { id := 2, artistId := 2, name := "Album", miscellaneous := false }],
   [{ (songFromFile (scanFile "d1/f1.mp3" "Artist 1" "Album" "T1" "e1") 1 2 none none none 0)
        with albumId := 1 },
    { (songFromFile (scanFile "d2/f2.mp3" "Artist 1" "Album" "T2" "e2") 2 2 none none none 0)
        with albumId := 2 }]⟩

/-! ## Predicates the verification is stated with -/

/-- Claim C1's album-ownership invariant of a catalog: every album with
exactly one distinct primary song-artist is owned by that artist, and
every album with more than one is owned by the "Various" sentinel. -/
def ownershipInv (st : Catalog) : Prop :=
  ∀ al ∈ st.albums,
    (∀ x, ((st.songs.filter (fun s => s.albumId == al.id)).map (fun s => s.artistId)).dedup =
      [x] → al.artistId = x) ∧
    (2 ≤ ((st.songs.filter (fun s => s.albumId == al.id)).map (fun s => s.artistId)).dedup.length →
      ∃ v ∈ st.artists, v.various = true ∧ al.artistId = v.id)

/-- Observation of a scanned song the idempotence argument tracks: its
path and its content fingerprint. -/
def entryPair (e : SongEntry) : String × String := (e.song.filename, e.song.sha256sum)

/-- Coherence of a scanned song: a song keyed into a miscellaneous bucket
is keyed into its own primary artist's bucket. -/
def entryCoherent (e : SongEntry) : Prop :=
  ∀ aid, e.key = AlbumKey.misc aid → e.song.artistId = aid

/-- Identity-preserving part of an artist row: everything artist
resolution may never change in place. -/
def coreEq (a' a : Artist) : Prop :=
  a'.id = a.id ∧ a'.name = a.name ∧ a'.various = a.various

/-- How one reconciliation step may evolve the artist table: every
existing row survives with id, name and various flag intact; every
resulting row either descends from an existing row (its stored article
changed only from empty to non-empty) or is brand new with a key above
every old one; key uniqueness is preserved and the largest key never
shrinks. -/
def ArtistsEvolve (src dst : List Artist) : Prop :=
  (∀ a ∈ src, ∃ a' ∈ dst, coreEq a' a) ∧
  (∀ a' ∈ dst,
    (∃ a ∈ src, a'.id = a.id ∧ (a'.pfx = a.pfx ∨ (a.pfx = "" ∧ a'.pfx ≠ ""))) ∨
    maxArtistId src < a'.id) ∧
  ((src.map Artist.id).Nodup → (dst.map Artist.id).Nodup) ∧
  maxArtistId src ≤ maxArtistId dst

/-- Invariant of the second album-assignment pass, relative to the still
unprocessed pairs: assigned keys are distinct, each is either a claimed
old key below fresh0 or a created key in the fresh range, claimed keys
stay below fresh0, and pending pass-one assignments are claimed but not
yet emitted. -/
structure Pass2Inv (fresh0 : Nat) (pairs : List ((AlbumKey × List SongEntry) × Option Nat))
    (acc : Assign2Acc) : Prop where
  nodup : (acc.out.map Prod.snd).Nodup
  outBound : ∀ i ∈ acc.out.map Prod.snd,
    (i ∈ acc.taken ∧ i < fresh0) ∨ (fresh0 ≤ i ∧ i < acc.fresh)
  takenBound : ∀ i ∈ acc.taken, i < fresh0
  freshLe : fresh0 ≤ acc.fresh
  pendNodup : (pairs.filterMap Prod.snd).Nodup
  pend : ∀ i ∈ pairs.filterMap Prod.snd, i ∈ acc.taken ∧ i ∉ acc.out.map Prod.snd

/-! ## Helper lemmas: decimal digits and track-number parsing -/

theorem digitVal_digitChar {d : Nat} (h : d < 10) : digitVal (digitChar d) = d := by
  interval_cases d <;> rfl

theorem isDigit_digitChar (d : Nat) : (digitChar d).isDigit = true := by
  unfold digitChar
  split <;> rfl

theorem digitChar_ne_slash (d : Nat) : (digitChar d != '/') = true := by
  unfold digitChar
  split <;> rfl

theorem natDigitsRev_all_digit (n : Nat) : (natDigitsRev n).all Char.isDigit = true := by
  induction n using Nat.strong_induction_on with
  | _ n ih =>
    rw [natDigitsRev]
    split
    · simp [isDigit_digitChar]
    · rename_i h
      simp only [List.all_cons, Bool.and_eq_true]
      exact ⟨isDigit_digitChar _, ih (n / 10) (Nat.div_lt_self (by omega) (by omega))⟩

theorem natDigitsRev_ne_nil (n : Nat) : natDigitsRev n ≠ [] := by
  rw [natDigitsRev]
  split <;> simp

theorem natDigitsRev_no_slash (n : Nat) : (natDigitsRev n).all (fun c => c != '/') = true := by
  induction n using Nat.strong_induction_on with
  | _ n ih =>
    rw [natDigitsRev]
    split
    · simp [digitChar_ne_slash]
    · rename_i h
      simp only [List.all_cons, Bool.and_eq_true]
      exact ⟨digitChar_ne_slash _, ih (n / 10) (Nat.div_lt_self (by omega) (by omega))⟩

theorem foldl_natDigitsRev (n : Nat) :
    ∀ acc : Nat, ((natDigitsRev n).reverse).foldl (fun a c => a * 10 + digitVal c) acc =
      acc * 10 ^ (natDigitsRev n).length + n := by
  induction n using Nat.strong_induction_on with
  | _ n ih =>
    intro acc
    rw [natDigitsRev]
    split
    · rename_i h
      simp [List.foldl, digitVal_digitChar h]
    · rename_i h
      have hlt : n / 10 < n := Nat.div_lt_self (by omega) (by omega)
      simp only [List.reverse_cons, List.foldl_concat, List.length_cons]
      rw [ih (n / 10) hlt acc]
      have hmod : n % 10 < 10 := Nat.mod_lt _ (by omega)
      rw [digitVal_digitChar hmod]
      have hdm : 10 * (n / 10) + n % 10 = n := Nat.div_add_mod n 10
      have hp : 10 ^ ((natDigitsRev (n / 10)).length + 1) =
          10 ^ (natDigitsRev (n / 10)).length * 10 := pow_succ 10 _
      rw [hp]
      ring_nf
      omega

theorem parseNatStrict_render (n : Nat) :
    parseNatStrict ((natDigitsRev n).reverse) = some n := by
  unfold parseNatStrict
  rw [if_pos]
  · rw [foldl_natDigitsRev n 0]
    simp
  · constructor
    · simp [natDigitsRev_ne_nil n]
    · rw [List.all_reverse]
      exact natDigitsRev_all_digit n

theorem takeWhile_of_all {α : Type} {p : α → Bool} {l : List α}
    (h : ∀ x ∈ l, p x = true) : l.takeWhile p = l :=
  List.takeWhile_eq_self_iff.mpr h

theorem takeWhile_append_of_all {α : Type} {p : α → Bool} {xs ys : List α}
    (h : ∀ x ∈ xs, p x = true) : (xs ++ ys).takeWhile p = xs ++ ys.takeWhile p := by
  rw [List.takeWhile_append, takeWhile_of_all h]
  simp

/-- Claim C8: track-number parsing is total and normalizing: a decimal "N"
parses to N, an "N/M" form parses to N, and the empty string or any input
whose part before the slash is not a pure numeral parses to 0 (never
raising). -/
theorem claim_c8 :
    (∀ n : Nat, parseTrackTag (renderNat n) = n) ∧
    (∀ n m : Nat, parseTrackTag (renderNat n ++ "/" ++ renderNat m) = n) ∧
    (parseTrackTag "" = 0) ∧
    (∀ s : String,
      (s.data.takeWhile (fun c => c != '/')).any (fun c => !c.isDigit) = true ∨
        s.data.takeWhile (fun c => c != '/') = [] →
      parseTrackTag s = 0) := by
  refine ⟨?_, ?_, rfl, ?_⟩
  · intro n
    unfold parseTrackTag renderNat
    have hall : ∀ x ∈ (natDigitsRev n).reverse, (x != '/') = true := by
      intro x hx
      have := natDigitsRev_no_slash n
      rw [List.all_eq_true] at this
      exact this x (List.mem_reverse.mp hx)
    rw [show (String.mk (natDigitsRev n).reverse).data = (natDigitsRev n).reverse from rfl]
    rw [takeWhile_of_all hall, parseNatStrict_render]
  · intro n m
    unfold parseTrackTag renderNat
    have hdata : (String.mk (natDigitsRev n).reverse ++ "/" ++
        String.mk (natDigitsRev m).reverse).data =
        (natDigitsRev n).reverse ++ ('/' :: (natDigitsRev m).reverse) := by
      rw [String.data_append, String.data_append]
      simp
    rw [hdata]
    have hall : ∀ x ∈ (natDigitsRev n).reverse, (x != '/') = true := by
      intro x hx
      have := natDigitsRev_no_slash n
      rw [List.all_eq_true] at this
      exact this x (List.mem_reverse.mp hx)
    rw [takeWhile_append_of_all hall]
    simp only [List.takeWhile_cons]
    norm_num
    rw [parseNatStrict_render]
  · intro s h
    unfold parseTrackTag
    rw [show parseNatStrict (s.data.takeWhile fun c => c != '/') = none from ?_]
    unfold parseNatStrict
    rw [if_neg]
    intro ⟨hne, hdig⟩
    rcases h with h | h
    · rw [List.any_eq_true] at h
      obtain ⟨c, hc, hcd⟩ := h
      rw [List.all_eq_true] at hdig
      have := hdig c hc
      simp_all
    · exact hne h

/-- Witness for claim C8 at concrete inputs: a space normalizes to 0 and
the numeral twelve parses to 12. -/
theorem claim_c8_witness : parseTrackTag " " = 0 ∧ parseTrackTag (renderNat 12) = 12 :=
  ⟨claim_c8.2.2.2 " " (by decide), claim_c8.1 12⟩

/-! ## The search view: sanitization and matching (claim C10) -/

theorem sanitizeSearch_characterization (q : List Char) :
    sanitizeSearch q = (q.takeWhile (fun c => c != '\n' && c != '\r')).take 80 := by
  simp only [sanitizeSearch]
  have h1 : (if '\n' ∈ q then q.takeWhile (fun c => c != '\n') else q) =
      q.takeWhile (fun c => c != '\n') := by
    split
    · rfl
    · rename_i h
      rw [takeWhile_of_all]
      intro x hx
      simp only [bne_iff_ne, ne_eq]
      intro hc
      exact h (hc ▸ hx)
  rw [h1]
  have h2 : ((q.takeWhile (fun c => c != '\n')).takeWhile (fun c => c != '\r')) =
      q.takeWhile (fun c => c != '\n' && c != '\r') := by
    rw [List.takeWhile_takeWhile]
    congr 1
    funext c
    by_cases hn : c = '\n' <;> by_cases hr : c = '\r' <;> simp [hn, hr]
  have h3 : (if '\r' ∈ q.takeWhile (fun c => c != '\n') then
      (q.takeWhile (fun c => c != '\n')).takeWhile (fun c => c != '\r') else
      q.takeWhile (fun c => c != '\n')) = q.takeWhile (fun c => c != '\n' && c != '\r') := by
    split
    · exact h2
    · rename_i h
      rw [← h2]
      symm
      rw [takeWhile_of_all]
      intro x hx
      simp only [bne_iff_ne, ne_eq]
      intro hc
      exact h (hc ▸ hx)
  rw [h3]
  split
  · rfl
  · rename_i h
    rw [List.take_of_length_le (by omega)]

/-- Claim C10: the search string actually used is the original query
truncated at its first newline or carriage return and to at most 80
characters; matching is case-insensitive substring over artist names,
album names and song titles; and found_results is true exactly when at
least one of the three result sets is non-empty. -/
theorem claim_c10 :
    (∀ q : List Char,
      sanitizeSearch q = (q.takeWhile (fun c => c != '\n' && c != '\r')).take 80) ∧
    (∀ ar al so : List String, ∀ q : List Char, ∀ n : String,
      (n ∈ (searchContext ar al so q).artistResults ↔
        n ∈ ar ∧ ((sanitizeSearch q).map Char.toLower) <:+: (n.data.map Char.toLower)) ∧
      (n ∈ (searchContext ar al so q).albumResults ↔
        n ∈ al ∧ ((sanitizeSearch q).map Char.toLower) <:+: (n.data.map Char.toLower)) ∧
      (n ∈ (searchContext ar al so q).songResults ↔
        n ∈ so ∧ ((sanitizeSearch q).map Char.toLower) <:+: (n.data.map Char.toLower))) ∧
    (∀ ar al so : List String, ∀ q : List Char,
      (searchContext ar al so q).found_results = true ↔
        ((searchContext ar al so q).artistResults ≠ [] ∨
         (searchContext ar al so q).albumResults ≠ [] ∨
         (searchContext ar al so q).songResults ≠ [])) := by
  refine ⟨sanitizeSearch_characterization, ?_, ?_⟩
  · intro ar al so q n
    refine ⟨?_, ?_, ?_⟩ <;>
      simp [searchContext, List.mem_mergeSort, List.mem_filter, icontains]
  · intro ar al so q
    simp only [searchContext]
    constructor
    · intro h
      rcases Bool.or_eq_true_iff.mp h with h | h
      · rcases Bool.or_eq_true_iff.mp h with h | h
        · left
          rw [decide_eq_true_iff, List.length_pos] at h
          exact h
        · right; left
          rw [decide_eq_true_iff, List.length_pos] at h
          exact h
      · right; right
        rw [decide_eq_true_iff, List.length_pos] at h
        exact h
    · intro h
      rcases h with h | h | h
      · apply Bool.or_eq_true_iff.mpr
        left
        apply Bool.or_eq_true_iff.mpr
        left
        rw [decide_eq_true_iff, List.length_pos]
        exact h
      · apply Bool.or_eq_true_iff.mpr
        left
        apply Bool.or_eq_true_iff.mpr
        right
        rw [decide_eq_true_iff, List.length_pos]
        exact h
      · apply Bool.or_eq_true_iff.mpr
        right
        rw [decide_eq_true_iff, List.length_pos]
        exact h

/-! ## Generic list helpers -/

theorem nodup_map_inj {α β : Type} {f : α → β} {l : List α}
    (h : (l.map f).Nodup) {x y : α} (hx : x ∈ l) (hy : y ∈ l) (hf : f x = f y) : x = y := by
  induction l with
  | nil => cases hx
  | cons a t ih =>
    rw [List.map_cons, List.nodup_cons] at h
    rcases List.mem_cons.mp hx with rfl | hx' <;> rcases List.mem_cons.mp hy with rfl | hy'
    · rfl
    · exact absurd (hf ▸ List.mem_map_of_mem f hy') h.1
    · exact absurd (hf ▸ List.mem_map_of_mem f hx') h.1
    · exact ih h.2 hx' hy'

theorem foldl_max_start {α : Type} (f : α → Nat) (l : List α) :
    ∀ m, m ≤ l.foldl (fun m a => max m (f a)) m := by
  induction l with
  | nil => intro m; exact le_refl m
  | cons a t ih =>
    intro m
    exact le_trans (le_max_left m (f a)) (ih (max m (f a)))

theorem foldl_max_mem {α : Type} (f : α → Nat) (l : List α) :
    ∀ m, ∀ a ∈ l, f a ≤ l.foldl (fun m a => max m (f a)) m := by
  induction l with
  | nil => intro m a ha; cases ha
  | cons x t ih =>
    intro m a ha
    rcases List.mem_cons.mp ha with rfl | ha'
    · exact le_trans (le_max_right m (f a)) (foldl_max_start f t _)
    · exact ih _ a ha'

theorem maxArtistId_mem {artists : List Artist} {a : Artist} (h : a ∈ artists) :
    a.id ≤ maxArtistId artists :=
  foldl_max_mem Artist.id artists 0 a h

theorem maxAlbumId_mem {albums : List Album} {a : Album} (h : a ∈ albums) :
    a.id ≤ maxAlbumId albums :=
  foldl_max_mem Album.id albums 0 a h

theorem dedup_all_eq {α : Type} [DecidableEq α] {l : List α} {x : α} (hne : l ≠ [])
    (h : ∀ y ∈ l, y = x) : l.dedup = [x] := by
  induction l with
  | nil => exact absurd rfl hne
  | cons a t ih =>
    have hax : a = x := h a (List.mem_cons_self a t)
    rcases eq_or_ne t [] with rfl | ht
    · simp [List.dedup, hax]
    · have hxt : a ∈ t := by
        subst hax
        obtain ⟨y, hy⟩ := List.exists_mem_of_ne_nil t ht
        exact (h y (List.mem_cons_of_mem _ hy)) ▸ hy
      rw [List.dedup_cons_of_mem hxt]
      exact ih ht (fun y hy => h y (List.mem_cons_of_mem _ hy))

theorem nodup_concat {α : Type} {l : List α} {x : α} (h : l.Nodup) (hx : x ∉ l) :
    (l ++ [x]).Nodup := by
  rw [← List.concat_eq_append]
  exact List.Nodup.concat hx h

/-! ## Artist resolution preserves identity and established articles -/

theorem maxArtistId_eq_of_ids {l₁ l₂ : List Artist} (h : l₁.map Artist.id = l₂.map Artist.id) :
    maxArtistId l₁ = maxArtistId l₂ := by
  unfold maxArtistId
  rw [← List.foldl_map (f := Artist.id) (g := fun m i => max m i),
      ← List.foldl_map (f := Artist.id) (g := fun m i => max m i), h]

theorem artistsEvolve_refl (l : List Artist) : ArtistsEvolve l l := by
  refine ⟨fun a ha => ⟨a, ha, rfl, rfl, rfl⟩, fun a' ha' => Or.inl ⟨a', ha', rfl, Or.inl rfl⟩,
    id, le_refl _⟩

theorem artistsEvolve_trans {l₁ l₂ l₃ : List Artist}
    (h12 : ArtistsEvolve l₁ l₂) (h23 : ArtistsEvolve l₂ l₃) : ArtistsEvolve l₁ l₃ := by
  obtain ⟨f12, b12, n12, m12⟩ := h12
  obtain ⟨f23, b23, n23, m23⟩ := h23
  refine ⟨?_, ?_, fun h => n23 (n12 h), le_trans m12 m23⟩
  · intro a ha
    obtain ⟨a', ha', hc⟩ := f12 a ha
    obtain ⟨a'', ha'', hc'⟩ := f23 a' ha'
    exact ⟨a'', ha'', hc'.1.trans hc.1, hc'.2.1.trans hc.2.1, hc'.2.2.trans hc.2.2⟩
  · intro a'' ha''
    rcases b23 a'' ha'' with ⟨a', ha', hid, hp⟩ | hfresh
    · rcases b12 a' ha' with ⟨a, ha, hid', hp'⟩ | hfresh'
      · refine Or.inl ⟨a, ha, hid.trans hid', ?_⟩
        rcases hp with hp | ⟨he, hne⟩
        · rcases hp' with hp' | ⟨he', hne'⟩
          · exact Or.inl (hp.trans hp')
          · exact Or.inr ⟨he', hp ▸ hne'⟩
        · rcases hp' with hp' | ⟨he', hne'⟩
          · exact Or.inr ⟨hp' ▸ he, hne⟩
          · exact absurd he hne'
      · exact Or.inr (by rw [hid]; exact hfresh')
    · exact Or.inr (lt_of_le_of_lt m12 hfresh)

theorem evolve_append_fresh (l : List Artist) (v : Artist) (hv : v.id = maxArtistId l + 1) :
    ArtistsEvolve l (l ++ [v]) := by
  refine ⟨?_, ?_, ?_, ?_⟩
  · intro a ha
    exact ⟨a, List.mem_append_left _ ha, rfl, rfl, rfl⟩
  · intro a' ha'
    rcases List.mem_append.mp ha' with h | h
    · exact Or.inl ⟨a', h, rfl, Or.inl rfl⟩
    · rcases List.mem_singleton.mp h with rfl
      exact Or.inr (by omega)
  · intro h
    rw [List.map_append, List.map_singleton]
    apply nodup_concat h
    intro hmem
    obtain ⟨a, ha, hid⟩ := List.mem_map.mp hmem
    have := maxArtistId_mem ha
    omega
  · show maxArtistId l ≤ maxArtistId (l ++ [v])
    unfold maxArtistId
    rw [List.foldl_concat]
    exact le_max_left _ _

theorem resolveArtist_none {artists : List Artist} {raw : String}
    (hf : artists.find? (fun a => lowerStr a.name == lowerStr (splitLeadingArticle raw).2) = none) :
    resolveArtist artists raw = (maxArtistId artists + 1, artists ++
      [⟨maxArtistId artists + 1, (splitLeadingArticle raw).2, (splitLeadingArticle raw).1,
        false⟩]) := by
  simp only [resolveArtist]
  rw [hf]

theorem resolveArtist_found {artists : List Artist} {raw : String} {a0 : Artist}
    (hf : artists.find? (fun a => lowerStr a.name == lowerStr (splitLeadingArticle raw).2) =
      some a0) :
    resolveArtist artists raw =
      if a0.pfx = "" ∧ (splitLeadingArticle raw).1 ≠ "" then
        (a0.id, artists.map (fun b =>
          if b.id = a0.id then { b with pfx := (splitLeadingArticle raw).1 } else b))
      else (a0.id, artists) := by
  simp only [resolveArtist]
  rw [hf]

theorem resolveArtist_evolve (artists : List Artist) (raw : String) :
    ArtistsEvolve artists (resolveArtist artists raw).2 := by
  cases hf : artists.find? (fun a => lowerStr a.name == lowerStr (splitLeadingArticle raw).2) with
  | none =>
    rw [resolveArtist_none hf]
    exact evolve_append_fresh _ _ rfl
  | some a0 =>
    have ha0 : a0 ∈ artists := List.mem_of_find?_eq_some hf
    rw [resolveArtist_found hf]
    by_cases hcond : a0.pfx = "" ∧ (splitLeadingArticle raw).1 ≠ ""
    · rw [if_pos hcond]
      show ArtistsEvolve artists (artists.map (fun b =>
        if b.id = a0.id then { b with pfx := (splitLeadingArticle raw).1 } else b))
      have hids : (artists.map (fun b =>
          if b.id = a0.id then { b with pfx := (splitLeadingArticle raw).1 } else b)).map
          Artist.id = artists.map Artist.id := by
        rw [List.map_map]
        apply List.map_congr_left
        intro b _
        by_cases hid : b.id = a0.id <;> simp [hid]
      refine ⟨?_, ?_, ?_, ?_⟩
      · intro a ha
        refine ⟨_, List.mem_map_of_mem _ ha, ?_⟩
        by_cases hid : a.id = a0.id <;> simp [hid, coreEq]
      · intro a' ha'
        obtain ⟨b, hb, hba⟩ := List.mem_map.mp ha'
        by_cases hid : b.id = a0.id
        · rw [if_pos hid] at hba
          refine Or.inl ⟨a0, ha0, ?_, Or.inr ⟨hcond.1, ?_⟩⟩
          · rw [← hba]
            exact hid
          · rw [← hba]
            exact hcond.2
        · rw [if_neg hid] at hba
          exact Or.inl ⟨b, hb, by rw [← hba], Or.inl (by rw [← hba])⟩
      · intro h
        rw [hids]
        exact h
      · exact le_of_eq (maxArtistId_eq_of_ids hids.symm)
    · rw [if_neg hcond]
      exact artistsEvolve_refl artists

theorem resolveRole_evolve (artists : List Artist) (raw : String) :
    ArtistsEvolve artists (resolveRole artists raw).2 := by
  unfold resolveRole
  split
  · exact artistsEvolve_refl artists
  · exact resolveArtist_evolve artists raw

theorem processFile_evolve (b : Bool) (now : Nat) (c : Catalog) (acc : SyncAcc) (f : FileRec) :
    ArtistsEvolve acc.artists (processFile b now c acc f).artists := by
  have chain : ∀ l : List Artist, ArtistsEvolve l
      (resolveRole (resolveRole (resolveRole (resolveArtist l f.artist).2 f.group).2
        f.conductor).2 f.composer).2 := by
    intro l
    exact artistsEvolve_trans (artistsEvolve_trans
      (artistsEvolve_trans (resolveArtist_evolve l f.artist) (resolveRole_evolve _ f.group))
      (resolveRole_evolve _ f.conductor)) (resolveRole_evolve _ f.composer)
  unfold processFile
  cases c.songs.find? (fun s => s.filename == f.path) with
  | some s =>
    simp only
    split
    · exact chain acc.artists
    · exact artistsEvolve_refl _
  | none =>
    cases acc.gone.find? (fun g => g.sha256sum == f.sha256) with
    | some g => exact artistsEvolve_refl _
    | none => exact chain acc.artists

theorem foldl_processFile_evolve (b : Bool) (now : Nat) (c : Catalog) (fs : List FileRec) :
    ∀ acc, ArtistsEvolve acc.artists ((fs.foldl (processFile b now c) acc).artists) := by
  induction fs with
  | nil => intro acc; exact artistsEvolve_refl _
  | cons f fs ih =>
    intro acc
    exact artistsEvolve_trans (processFile_evolve b now c acc f) (ih _)

theorem ensureVarious_evolve (l : List Artist) : ArtistsEvolve l (ensureVarious l) := by
  unfold ensureVarious
  split
  · exact artistsEvolve_refl l
  · exact evolve_append_fresh l _ rfl

theorem ensureVarious_any (l : List Artist) :
    (ensureVarious l).any (fun a => a.various) = true := by
  unfold ensureVarious
  split
  · assumption
  · rw [List.any_append]
    simp

theorem ensureVarious_has (l : List Artist) :
    ∃ v ∈ ensureVarious l, v.various = true ∧ v.id = variousId (ensureVarious l) := by
  cases hf : (ensureVarious l).find? (fun a => a.various) with
  | none =>
    rw [List.find?_eq_none] at hf
    obtain ⟨v, hv, hvv⟩ := List.any_eq_true.mp (ensureVarious_any l)
    exact absurd hvv (hf v hv)
  | some v =>
    refine ⟨v, List.mem_of_find?_eq_some hf, List.find?_some hf, ?_⟩
    unfold variousId
    rw [hf]

/-! ## Grouping songs by album key -/

theorem insertEntry_cases (gs : List (AlbumKey × List SongEntry)) (e : SongEntry) :
    (∀ g' ∈ insertEntry gs e,
      g' ∈ gs ∨ (∃ g ∈ gs, g.1 = e.key ∧ g' = (g.1, g.2 ++ [e])) ∨ g' = (e.key, [e])) := by
  intro g' hg'
  unfold insertEntry at hg'
  split at hg'
  · obtain ⟨g, hg, hgg⟩ := List.mem_map.mp hg'
    by_cases hk : g.1 = e.key
    · rw [if_pos hk] at hgg
      exact Or.inr (Or.inl ⟨g, hg, hk, hgg.symm⟩)
    · rw [if_neg hk] at hgg
      exact Or.inl (hgg ▸ hg)
  · rcases List.mem_append.mp hg' with h | h
    · exact Or.inl h
    · exact Or.inr (Or.inr (List.mem_singleton.mp h))

theorem insertEntry_firsts (gs : List (AlbumKey × List SongEntry)) (e : SongEntry) :
    (insertEntry gs e).map Prod.fst = gs.map Prod.fst ∨
    ((insertEntry gs e).map Prod.fst = gs.map Prod.fst ++ [e.key] ∧
      e.key ∉ gs.map Prod.fst) := by
  unfold insertEntry
  split
  · left
    rw [List.map_map]
    apply List.map_congr_left
    intro g _
    by_cases h : g.1 = e.key <;> simp [h]
  · rename_i hany
    right
    constructor
    · simp
    · intro hmem
      obtain ⟨g, hg, hgk⟩ := List.mem_map.mp hmem
      exact hany (List.any_eq_true.mpr ⟨g, hg, by simp [hgk]⟩)

theorem groupify_sound (es : List SongEntry) :
    ((groupify es).map Prod.fst).Nodup ∧
    (∀ g ∈ groupify es, (∀ e ∈ g.2, e.key = g.1) ∧ g.2 ≠ []) := by
  suffices h : ∀ gs : List (AlbumKey × List SongEntry),
      ((gs.map Prod.fst).Nodup ∧ (∀ g ∈ gs, (∀ e ∈ g.2, e.key = g.1) ∧ g.2 ≠ [])) →
      ((es.foldl insertEntry gs).map Prod.fst).Nodup ∧
      (∀ g ∈ es.foldl insertEntry gs, (∀ e ∈ g.2, e.key = g.1) ∧ g.2 ≠ []) by
    exact h [] ⟨List.nodup_nil, by simp⟩
  induction es with
  | nil => intro gs h; exact h
  | cons e es ih =>
    intro gs h
    apply ih
    constructor
    · rcases insertEntry_firsts gs e with heq | ⟨heq, hnot⟩
      · rw [heq]; exact h.1
      · rw [heq]; exact nodup_concat h.1 hnot
    · intro g' hg'
      rcases insertEntry_cases gs e g' hg' with hin | ⟨g, hg, hk, rfl⟩ | rfl
      · exact h.2 g' hin
      · refine ⟨?_, by simp⟩
        intro x hx
        rcases List.mem_append.mp hx with hx | hx
        · exact (h.2 g hg).1 x hx
        · rw [List.mem_singleton.mp hx, hk]
      · exact ⟨fun x hx => by rw [List.mem_singleton.mp hx], by simp⟩

theorem insertEntry_superset (gs : List (AlbumKey × List SongEntry)) (e : SongEntry) :
    ∀ g ∈ gs, ∃ g' ∈ insertEntry gs e, g.1 = g'.1 ∧ ∀ x ∈ g.2, x ∈ g'.2 := by
  intro g hg
  unfold insertEntry
  split
  · refine ⟨(if g.1 = e.key then (g.1, g.2 ++ [e]) else g), List.mem_map_of_mem _ hg, ?_⟩
    by_cases hk : g.1 = e.key
    · rw [if_pos hk]
      exact ⟨rfl, fun x hx => List.mem_append_left _ hx⟩
    · rw [if_neg hk]
      exact ⟨rfl, fun x hx => hx⟩
  · exact ⟨g, List.mem_append_left _ hg, rfl, fun x hx => hx⟩

theorem insertEntry_adds (gs : List (AlbumKey × List SongEntry)) (e : SongEntry) :
    ∃ g' ∈ insertEntry gs e, e ∈ g'.2 := by
  unfold insertEntry
  split
  · rename_i hany
    obtain ⟨g, hg, hgk⟩ := List.any_eq_true.mp hany
    rw [decide_eq_true_iff] at hgk
    refine ⟨(g.1, g.2 ++ [e]), ?_, by simp⟩
    have : (g.1, g.2 ++ [e]) = if g.1 = e.key then (g.1, g.2 ++ [e]) else g := by
      rw [if_pos hgk]
    rw [this]
    exact List.mem_map_of_mem _ hg
  · exact ⟨(e.key, [e]), List.mem_append_right _ (List.mem_singleton_self _), by simp⟩

theorem groupify_covers (es : List SongEntry) :
    ∀ e ∈ es, ∃ g ∈ groupify es, e ∈ g.2 := by
  suffices h : ∀ gs : List (AlbumKey × List SongEntry), ∀ e : SongEntry,
      ((∃ g ∈ gs, e ∈ g.2) ∨ e ∈ es) → ∃ g ∈ es.foldl insertEntry gs, e ∈ g.2 by
    intro e he
    exact h [] e (Or.inr he)
  induction es with
  | nil =>
    intro gs e h
    rcases h with h | h
    · exact h
    · cases h
  | cons e0 es ih =>
    intro gs e h
    show ∃ g ∈ es.foldl insertEntry (insertEntry gs e0), e ∈ g.2
    rcases h with ⟨g, hg, he⟩ | h
    · obtain ⟨g', hg', _, hsub⟩ := insertEntry_superset gs e0 g hg
      exact ih (insertEntry gs e0) e (Or.inl ⟨g', hg', hsub e he⟩)
    · rcases List.mem_cons.mp h with rfl | h'
      · obtain ⟨g', hg', he'⟩ := insertEntry_adds gs e
        exact ih _ e (Or.inl ⟨g', hg', he'⟩)
      · exact ih _ e (Or.inr h')

theorem groupify_sub (es : List SongEntry) :
    ∀ g ∈ groupify es, ∀ e ∈ g.2, e ∈ es := by
  suffices h : ∀ gs : List (AlbumKey × List SongEntry), ∀ g ∈ es.foldl insertEntry gs,
      ∀ e ∈ g.2, (∃ g0 ∈ gs, e ∈ g0.2) ∨ e ∈ es by
    intro g hg e he
    rcases h [] g hg e he with ⟨g0, hg0, _⟩ | h'
    · cases hg0
    · exact h'
  induction es with
  | nil =>
    intro gs g hg e he
    exact Or.inl ⟨g, hg, he⟩
  | cons e0 es ih =>
    intro gs g hg e he
    rcases ih (insertEntry gs e0) g hg e he with ⟨g0, hg0, he0⟩ | h'
    · rcases insertEntry_cases gs e0 g0 hg0 with hin | ⟨g1, hg1, _, rfl⟩ | rfl
      · exact Or.inl ⟨g0, hin, he0⟩
      · rcases List.mem_append.mp he0 with hx | hx
        · exact Or.inl ⟨g1, hg1, hx⟩
        · exact Or.inr (List.mem_singleton.mp hx ▸ List.mem_cons_self e0 es)
      · exact Or.inr (List.mem_singleton.mp he0 ▸ List.mem_cons_self e0 es)
    · exact Or.inr (List.mem_cons_of_mem e0 h')

/-! ## Album assignment -/

theorem foldl_min_mem (t : List Album) :
    ∀ (b : Album) (S : List Album), b ∈ S → (∀ y ∈ t, y ∈ S) →
      t.foldl (fun b y => if y.id < b.id then y else b) b ∈ S := by
  induction t with
  | nil => intro b S hb _; exact hb
  | cons y t ih =>
    intro b S hb hsub
    rw [List.foldl_cons]
    have hnext : (if y.id < b.id then y else b) ∈ S := by
      by_cases hy : y.id < b.id
      · rw [if_pos hy]; exact hsub y (List.mem_cons_self y t)
      · rw [if_neg hy]; exact hb
    exact ih _ S hnext (fun z hz => hsub z (List.mem_cons_of_mem y hz))

theorem pickMinId_mem {cands : List Album} {a : Album} (h : pickMinId cands = some a) :
    a ∈ cands := by
  match cands with
  | [] => cases h
  | x :: rest =>
    have ha : a = rest.foldl (fun b y => if y.id < b.id then y else b) x := by
      have h' := h
      unfold pickMinId at h'
      exact (Option.some_inj.mp h').symm
    rw [ha]
    exact foldl_min_mem rest x (x :: rest) (List.mem_cons_self x rest)
      (fun z hz => List.mem_cons_of_mem x hz)

theorem pass1step_shape (c : Catalog) (artists : List Artist) (acc : AssignAcc)
    (g : AlbumKey × List SongEntry) :
    ∃ o : Option Nat, (pass1step c artists acc g).pairs = acc.pairs ++ [(g, o)] := by
  unfold pass1step
  split
  · exact ⟨_, rfl⟩
  · exact ⟨none, rfl⟩

theorem pass2step_shape (c : Catalog) (acc : Assign2Acc)
    (gp : (AlbumKey × List SongEntry) × Option Nat) :
    ∃ k : Nat, (pass2step c acc gp).out = acc.out ++ [(gp.1, k)] := by
  unfold pass2step
  split
  · exact ⟨_, rfl⟩
  · split
    · exact ⟨_, rfl⟩
    · exact ⟨_, rfl⟩

theorem assignPass1_firsts (c : Catalog) (artists : List Artist)
    (groups : List (AlbumKey × List SongEntry)) :
    (assignPass1 c artists groups).pairs.map Prod.fst = groups := by
  suffices h : ∀ gs : List (AlbumKey × List SongEntry), ∀ acc : AssignAcc,
      ((gs.foldl (pass1step c artists) acc).pairs).map Prod.fst =
        acc.pairs.map Prod.fst ++ gs by
    exact h groups ⟨[], []⟩
  intro gs
  induction gs with
  | nil => intro acc; simp
  | cons g gs ih =>
    intro acc
    rw [List.foldl_cons, ih]
    obtain ⟨o, ho⟩ := pass1step_shape c artists acc g
    rw [ho]
    simp

theorem assignPass2_firsts (c : Catalog) (p1 : AssignAcc) (fresh0 : Nat) :
    (assignPass2 c p1 fresh0).map Prod.fst = p1.pairs.map Prod.fst := by
  unfold assignPass2
  suffices h : ∀ pairs : List ((AlbumKey × List SongEntry) × Option Nat), ∀ acc : Assign2Acc,
      ((pairs.foldl (pass2step c) acc).out).map Prod.fst =
        acc.out.map Prod.fst ++ pairs.map Prod.fst by
    rw [h p1.pairs ⟨[], p1.taken, fresh0⟩]
    simp
  intro pairs
  induction pairs with
  | nil => intro acc; simp
  | cons gp pairs ih =>
    intro acc
    rw [List.foldl_cons, ih]
    obtain ⟨k, hk⟩ := pass2step_shape c acc gp
    rw [hk]
    simp

theorem albumPhase_firsts (c : Catalog) (artists1 : List Artist) (entries : List SongEntry) :
    (albumPhase c artists1 entries).map Prod.fst = groupify entries := by
  unfold albumPhase
  rw [assignPass2_firsts, assignPass1_firsts]

theorem pass1step_cases (c : Catalog) (artists : List Artist) (acc : AssignAcc)
    (g : AlbumKey × List SongEntry) :
    (∃ a : Album, a ∈ c.albums ∧ a.id ∉ acc.taken ∧
      pass1step c artists acc g = ⟨acc.pairs ++ [(g, some a.id)], acc.taken ++ [a.id]⟩) ∨
    pass1step c artists acc g = ⟨acc.pairs ++ [(g, none)], acc.taken⟩ := by
  unfold pass1step
  split
  · rename_i a hp
    have ha := pickMinId_mem hp
    rw [List.mem_filter] at ha
    obtain ⟨hcand, hpred⟩ := ha
    rw [Bool.and_eq_true, Bool.and_eq_true] at hpred
    refine Or.inl ⟨a, ?_, ?_, rfl⟩
    · unfold candAlbums at hcand
      exact (List.mem_filter.mp hcand).1
    · intro hmem
      have := List.elem_eq_true_of_mem hmem
      rw [Bool.not_eq_true'] at hpred
      rw [show acc.taken.contains a.id = acc.taken.elem a.id from rfl] at hpred
      rw [this] at hpred
      exact Bool.false_ne_true hpred.2.symm
  · exact Or.inr rfl

theorem pass2step_cases (c : Catalog) (acc : Assign2Acc)
    (gp : (AlbumKey × List SongEntry) × Option Nat) :
    (∃ k, gp.2 = some k ∧
      pass2step c acc gp = ⟨acc.out ++ [(gp.1, k)], acc.taken, acc.fresh⟩) ∨
    (∃ a : Album, a ∈ c.albums ∧ a.id ∉ acc.taken ∧
      pass2step c acc gp = ⟨acc.out ++ [(gp.1, a.id)], acc.taken ++ [a.id], acc.fresh⟩) ∨
    pass2step c acc gp = ⟨acc.out ++ [(gp.1, acc.fresh)], acc.taken, acc.fresh + 1⟩ := by
  unfold pass2step
  split
  · rename_i k hk
    exact Or.inl ⟨k, hk, rfl⟩
  · split
    · rename_i a hp
      have ha := pickMinId_mem hp
      rw [List.mem_filter] at ha
      obtain ⟨hcand, hpred⟩ := ha
      refine Or.inr (Or.inl ⟨a, ?_, ?_, rfl⟩)
      · unfold candAlbums at hcand
        exact (List.mem_filter.mp hcand).1
      · intro hmem
        have := List.elem_eq_true_of_mem hmem
        rw [Bool.not_eq_true'] at hpred
        rw [show acc.taken.contains a.id = acc.taken.elem a.id from rfl] at hpred
        rw [this] at hpred
        exact Bool.false_ne_true hpred.symm
    · exact Or.inr (Or.inr rfl)

theorem assignPass1_inv (c : Catalog) (artists : List Artist)
    (groups : List (AlbumKey × List SongEntry)) :
    (assignPass1 c artists groups).taken =
      (assignPass1 c artists groups).pairs.filterMap Prod.snd ∧
    (assignPass1 c artists groups).taken.Nodup ∧
    (∀ i ∈ (assignPass1 c artists groups).taken, ∃ a ∈ c.albums, a.id = i) := by
  suffices h : ∀ (gs : List (AlbumKey × List SongEntry)) (acc : AssignAcc),
      acc.taken = acc.pairs.filterMap Prod.snd → acc.taken.Nodup →
      (∀ i ∈ acc.taken, ∃ a ∈ c.albums, a.id = i) →
      ((gs.foldl (pass1step c artists) acc).taken =
        (gs.foldl (pass1step c artists) acc).pairs.filterMap Prod.snd ∧
      (gs.foldl (pass1step c artists) acc).taken.Nodup ∧
      (∀ i ∈ (gs.foldl (pass1step c artists) acc).taken, ∃ a ∈ c.albums, a.id = i)) by
    exact h groups ⟨[], []⟩ rfl List.nodup_nil (by simp)
  intro gs
  induction gs with
  | nil => intro acc h1 h2 h3; exact ⟨h1, h2, h3⟩
  | cons g gs ih =>
    intro acc h1 h2 h3
    rw [List.foldl_cons]
    rcases pass1step_cases c artists acc g with ⟨a, hca, hnt, hstep⟩ | hstep <;> rw [hstep]
    · apply ih
      · show acc.taken ++ [a.id] = (acc.pairs ++ [(g, some a.id)]).filterMap Prod.snd
        rw [List.filterMap_append, ← h1]
        rfl
      · exact nodup_concat h2 hnt
      · intro i hi
        rcases List.mem_append.mp hi with hi | hi
        · exact h3 i hi
        · rw [List.mem_singleton.mp hi]
          exact ⟨a, hca, rfl⟩
    · apply ih
      · show acc.taken = (acc.pairs ++ [(g, none)]).filterMap Prod.snd
        rw [List.filterMap_append, ← h1]
        simp
      · exact h2
      · exact h3

theorem pass2_fold_inv (c : Catalog) (fresh0 : Nat)
    (hfresh : ∀ a ∈ c.albums, a.id < fresh0) :
    ∀ (pairs : List ((AlbumKey × List SongEntry) × Option Nat)) (acc : Assign2Acc),
      Pass2Inv fresh0 pairs acc → Pass2Inv fresh0 [] (pairs.foldl (pass2step c) acc) := by
  intro pairs
  induction pairs with
  | nil => intro acc h; exact h
  | cons gp pairs ih =>
    intro acc hinv
    rw [List.foldl_cons]
    apply ih
    rcases pass2step_cases c acc gp with ⟨k, hk, hstep⟩ | ⟨a, hca, hnt, hstep⟩ | hstep <;>
      rw [hstep]
    · have hpend : (gp :: pairs).filterMap Prod.snd = k :: pairs.filterMap Prod.snd := by
        rw [List.filterMap_cons, hk]
      have hk1 : k ∈ acc.taken ∧ k ∉ acc.out.map Prod.snd := by
        apply hinv.pend
        rw [hpend]
        exact List.mem_cons_self _ _
      have hkrest : k ∉ pairs.filterMap Prod.snd := by
        have := hinv.pendNodup
        rw [hpend, List.nodup_cons] at this
        exact this.1
      refine ⟨?_, ?_, hinv.takenBound, hinv.freshLe, ?_, ?_⟩
      · show ((acc.out ++ [(gp.1, k)]).map Prod.snd).Nodup
        rw [List.map_append]
        exact nodup_concat hinv.nodup hk1.2
      · intro i hi
        rw [List.map_append] at hi
        rcases List.mem_append.mp hi with hi | hi
        · exact hinv.outBound i hi
        · rw [List.mem_singleton.mp hi]
          exact Or.inl ⟨hk1.1, hinv.takenBound k hk1.1⟩
      · have := hinv.pendNodup
        rw [hpend, List.nodup_cons] at this
        exact this.2
      · intro i hi
        have hi' : i ∈ (gp :: pairs).filterMap Prod.snd := by
          rw [hpend]
          exact List.mem_cons_of_mem _ hi
        obtain ⟨hit, hio⟩ := hinv.pend i hi'
        refine ⟨hit, ?_⟩
        rw [List.map_append]
        intro hmem
        rcases List.mem_append.mp hmem with h | h
        · exact hio h
        · rw [List.mem_singleton.mp h] at hi
          exact hkrest hi
    · have hpend : (gp :: pairs).filterMap Prod.snd = pairs.filterMap Prod.snd ∨
          ∃ k, (gp :: pairs).filterMap Prod.snd = k :: pairs.filterMap Prod.snd := by
        rw [List.filterMap_cons]
        cases gp.2
        · exact Or.inl rfl
        · exact Or.inr ⟨_, rfl⟩
      have hanotout : a.id ∉ acc.out.map Prod.snd := by
        intro hmem
        rcases hinv.outBound a.id hmem with ⟨hit, _⟩ | ⟨hge, _⟩
        · exact hnt hit
        · exact absurd (hfresh a hca) (by omega)
      refine ⟨?_, ?_, ?_, hinv.freshLe, ?_, ?_⟩
      · show ((acc.out ++ [(gp.1, a.id)]).map Prod.snd).Nodup
        rw [List.map_append]
        exact nodup_concat hinv.nodup hanotout
      · intro i hi
        rw [List.map_append] at hi
        rcases List.mem_append.mp hi with hi | hi
        · rcases hinv.outBound i hi with ⟨hit, hlt⟩ | hr
          · exact Or.inl ⟨List.mem_append_left _ hit, hlt⟩
          · exact Or.inr hr
        · rw [List.mem_singleton.mp hi]
          exact Or.inl ⟨List.mem_append_right _ (List.mem_singleton_self _), hfresh a hca⟩
      · intro i hi
        rcases List.mem_append.mp hi with hi | hi
        · exact hinv.takenBound i hi
        · rw [List.mem_singleton.mp hi]
          exact hfresh a hca
      · rcases hpend with hp | ⟨k, hp⟩
        · have := hinv.pendNodup
          rw [hp] at this
          exact this
        · have := hinv.pendNodup
          rw [hp, List.nodup_cons] at this
          exact this.2
      · intro i hi
        have hi' : i ∈ (gp :: pairs).filterMap Prod.snd := by
          rcases hpend with hp | ⟨k, hp⟩
          · rw [hp]; exact hi
          · rw [hp]; exact List.mem_cons_of_mem _ hi
        obtain ⟨hit, hio⟩ := hinv.pend i hi'
        refine ⟨List.mem_append_left _ hit, ?_⟩
        rw [List.map_append]
        intro hmem
        rcases List.mem_append.mp hmem with h | h
        · exact hio h
        · rw [List.mem_singleton.mp h] at hit
          exact hnt hit
    · have hpend : ∀ i ∈ pairs.filterMap Prod.snd, i ∈ (gp :: pairs).filterMap Prod.snd := by
        intro i hi
        rw [List.filterMap_cons]
        cases gp.2
        · exact hi
        · exact List.mem_cons_of_mem _ hi
      have hfnotout : acc.fresh ∉ acc.out.map Prod.snd := by
        intro hmem
        rcases hinv.outBound acc.fresh hmem with ⟨_, hlt⟩ | ⟨_, hlt⟩
        · exact absurd hinv.freshLe (by omega)
        · omega
      refine ⟨?_, ?_, hinv.takenBound,
        (show fresh0 ≤ acc.fresh + 1 from by have := hinv.freshLe; omega), ?_, ?_⟩
      · show ((acc.out ++ [(gp.1, acc.fresh)]).map Prod.snd).Nodup
        rw [List.map_append]
        exact nodup_concat hinv.nodup hfnotout
      · intro i hi
        rw [List.map_append] at hi
        rcases List.mem_append.mp hi with hi | hi
        · rcases hinv.outBound i hi with hl | ⟨hge, hlt⟩
          · exact Or.inl hl
          · exact Or.inr ⟨hge, show i < acc.fresh + 1 from by omega⟩
        · rw [List.mem_singleton.mp hi]
          exact Or.inr ⟨hinv.freshLe, show acc.fresh < acc.fresh + 1 from by omega⟩
      · rcases List.filterMap_cons (f := Prod.snd) (a := gp) (l := pairs) with _
        have := hinv.pendNodup
        rw [List.filterMap_cons] at this
        cases hgp : gp.2
        · rw [hgp] at this
          exact this
        · rw [hgp] at this
          rw [List.nodup_cons] at this
          exact this.2
      · intro i hi
        obtain ⟨hit, hio⟩ := hinv.pend i (hpend i hi)
        refine ⟨hit, ?_⟩
        rw [List.map_append]
        intro hmem
        rcases List.mem_append.mp hmem with h | h
        · exact hio h
        · rw [List.mem_singleton.mp h] at hit
          have := hinv.takenBound _ hit
          exact absurd hinv.freshLe (by omega)

theorem albumPhase_ids_nodup (c : Catalog) (artists1 : List Artist)
    (entries : List SongEntry) :
    ((albumPhase c artists1 entries).map Prod.snd).Nodup := by
  unfold albumPhase assignPass2
  have hfresh : ∀ a ∈ c.albums, a.id < maxAlbumId c.albums + 1 := by
    intro a ha
    have := maxAlbumId_mem ha
    omega
  obtain ⟨ht, hnd, hal⟩ := assignPass1_inv c artists1 (groupify entries)
  have hinv : Pass2Inv (maxAlbumId c.albums + 1)
      (assignPass1 c artists1 (groupify entries)).pairs
      ⟨[], (assignPass1 c artists1 (groupify entries)).taken, maxAlbumId c.albums + 1⟩ := by
    refine ⟨List.nodup_nil, by simp, ?_, le_refl _, ?_, ?_⟩
    · intro i hi
      obtain ⟨a, hca, haid⟩ := hal i hi
      have := maxAlbumId_mem hca
      omega
    · rw [← ht]
      exact hnd
    · intro i hi
      rw [← ht] at hi
      exact ⟨hi, by simp⟩
  have := pass2_fold_inv c (maxAlbumId c.albums + 1) hfresh _ _ hinv
  exact this.nodup

/-! ## The final song and album lists of a run -/

theorem filter_flatMap_ne {i : Nat} :
    ∀ asg : List ((AlbumKey × List SongEntry) × Nat), (∀ gi ∈ asg, gi.2 ≠ i) →
    (asg.flatMap (fun gi => gi.1.2.map (fun e => { e.song with albumId := gi.2 }))).filter
      (fun s => s.albumId == i) = [] := by
  intro asg
  induction asg with
  | nil => intro _; rfl
  | cons gi asg ih =>
    intro h
    rw [List.flatMap_cons, List.filter_append,
      ih (fun x hx => h x (List.mem_cons_of_mem _ hx)), List.append_nil]
    rw [List.filter_eq_nil_iff]
    intro s hs
    obtain ⟨e, he, hse⟩ := List.mem_map.mp hs
    have hne : gi.2 ≠ i := h gi (List.mem_cons_self _ _)
    rw [← hse]
    simp [hne]

theorem filter_flatMap_block {asg : List ((AlbumKey × List SongEntry) × Nat)}
    (hnd : (asg.map Prod.snd).Nodup) {g : AlbumKey × List SongEntry} {i : Nat}
    (hmem : (g, i) ∈ asg) :
    (asg.flatMap (fun gi => gi.1.2.map (fun e => { e.song with albumId := gi.2 }))).filter
      (fun s => s.albumId == i) = g.2.map (fun e => { e.song with albumId := i }) := by
  induction asg with
  | nil => cases hmem
  | cons hd tl ih =>
    rw [List.map_cons, List.nodup_cons] at hnd
    rw [List.flatMap_cons, List.filter_append]
    rcases List.mem_cons.mp hmem with heq | htl
    · have h1 : (hd.1.2.map (fun e => { e.song with albumId := hd.2 })).filter
          (fun s => s.albumId == i) = g.2.map (fun e => { e.song with albumId := i }) := by
        rw [← heq]
        rw [List.filter_eq_self.mpr]
        intro s hs
        obtain ⟨e, he, hse⟩ := List.mem_map.mp hs
        rw [← hse]
        simp
      have h2 : (tl.flatMap (fun gi => gi.1.2.map
          (fun e => { e.song with albumId := gi.2 }))).filter (fun s => s.albumId == i) = [] := by
        apply filter_flatMap_ne
        intro x hx hxi
        apply hnd.1
        have hi2 : hd.2 = i := by rw [← heq]
        rw [hi2, ← hxi]
        exact List.mem_map_of_mem Prod.snd hx
      rw [h1, h2, List.append_nil]
    · have hne : hd.2 ≠ i := by
        intro hi
        apply hnd.1
        rw [hi]
        exact List.mem_map_of_mem Prod.snd htl
      have h1 : (hd.1.2.map (fun e => { e.song with albumId := hd.2 })).filter
          (fun s => s.albumId == i) = [] := by
        rw [List.filter_eq_nil_iff]
        intro s hs
        obtain ⟨e, he, hse⟩ := List.mem_map.mp hs
        rw [← hse]
        simp [hne]
      rw [h1, List.nil_append]
      exact ih hnd.2 htl

/-! ## Key coherence of the scan phase -/

theorem keyOfCatalog_coherent (c : Catalog) (s : Song) :
    ∀ aid, keyOfCatalog c s = AlbumKey.misc aid → s.artistId = aid := by
  intro aid h
  unfold keyOfCatalog at h
  split at h
  · split at h
    · injection h
    · exact AlbumKey.noConfusion h
  · injection h

theorem keyOfTag_coherent (albumTag : String) (artistId aid : Nat)
    (h : keyOfTag albumTag artistId = AlbumKey.misc aid) : artistId = aid := by
  unfold keyOfTag at h
  split at h
  · injection h
  · exact AlbumKey.noConfusion h

theorem processFile_coherent (b : Bool) (now : Nat) (c : Catalog) (acc : SyncAcc) (f : FileRec)
    (h : ∀ e ∈ acc.entries, entryCoherent e) :
    ∀ e ∈ (processFile b now c acc f).entries, entryCoherent e := by
  intro e he
  unfold processFile at he
  split at he
  · rename_i s hf
    split at he
    · rcases List.mem_append.mp he with he | he
      · exact h e he
      · rw [List.mem_singleton.mp he]
        intro aid hk
        exact keyOfTag_coherent f.album _ aid hk
    · rcases List.mem_append.mp he with he | he
      · exact h e he
      · rw [List.mem_singleton.mp he]
        intro aid hk
        exact keyOfCatalog_coherent c s aid hk
  · split at he
    · rename_i g hg
      rcases List.mem_append.mp he with he | he
      · exact h e he
      · rw [List.mem_singleton.mp he]
        intro aid hk
        exact keyOfCatalog_coherent c g aid hk
    · rcases List.mem_append.mp he with he | he
      · exact h e he
      · rw [List.mem_singleton.mp he]
        intro aid hk
        exact keyOfTag_coherent f.album _ aid hk

theorem syncPhase_coherent (b : Bool) (now : Nat) (c : Catalog) (fs : List FileRec) :
    ∀ e ∈ (syncPhase b now c fs).entries, entryCoherent e := by
  unfold syncPhase
  have hinit : ∀ e ∈ (keptSongs b c fs : List SongEntry), entryCoherent e := by
    intro e he
    unfold keptSongs at he
    split at he
    · cases he
    · obtain ⟨s, _, hse⟩ := List.mem_map.mp he
      rw [← hse]
      intro aid hk
      exact keyOfCatalog_coherent c s aid hk
  suffices hh : ∀ (l : List FileRec) (acc : SyncAcc), (∀ e ∈ acc.entries, entryCoherent e) →
      ∀ e ∈ (l.foldl (processFile b now c) acc).entries, entryCoherent e by
    exact hh fs _ hinit
  intro l
  induction l with
  | nil => intro acc hacc; exact hacc
  | cons f l ih =>
    intro acc hacc
    rw [List.foldl_cons]
    exact ih _ (processFile_coherent b now c acc f hacc)

/-! ## Run-level equations -/

theorem applyAssignment_fst (artists : List Artist) (vid : Nat)
    (asg : List ((AlbumKey × List SongEntry) × Nat)) :
    (applyAssignment artists vid asg).1 =
      asg.map (fun gi => buildAlbum artists vid gi.1 gi.2) := rfl

theorem applyAssignment_snd (artists : List Artist) (vid : Nat)
    (asg : List ((AlbumKey × List SongEntry) × Nat)) :
    (applyAssignment artists vid asg).2 =
      asg.flatMap (fun gi => gi.1.2.map (fun e => { e.song with albumId := gi.2 })) := rfl

theorem runScan_work (b : Bool) (now : Nat) (c : Catalog) (fs : List FileRec)
    (hw : hasWork b c fs = true) :
    runScan b now c fs =
      (⟨gcArtists (ensureVarious (syncPhase b now c fs).artists)
          (applyAssignment (ensureVarious (syncPhase b now c fs).artists)
            (variousId (ensureVarious (syncPhase b now c fs).artists))
            (albumPhase c (ensureVarious (syncPhase b now c fs).artists)
              (syncPhase b now c fs).entries)).1
          (applyAssignment (ensureVarious (syncPhase b now c fs).artists)
            (variousId (ensureVarious (syncPhase b now c fs).artists))
            (albumPhase c (ensureVarious (syncPhase b now c fs).artists)
              (syncPhase b now c fs).entries)).2,
        (applyAssignment (ensureVarious (syncPhase b now c fs).artists)
          (variousId (ensureVarious (syncPhase b now c fs).artists))
          (albumPhase c (ensureVarious (syncPhase b now c fs).artists)
            (syncPhase b now c fs).entries)).1,
        (applyAssignment (ensureVarious (syncPhase b now c fs).artists)
          (variousId (ensureVarious (syncPhase b now c fs).artists))
          (albumPhase c (ensureVarious (syncPhase b now c fs).artists)
            (syncPhase b now c fs).entries)).2⟩,
       (syncPhase b now c fs).report ++ (syncPhase b now c fs).gone.map
         (fun s => (Status.info, "Deleted: " ++ s.filename))) := by
  unfold runScan
  rw [if_pos hw]

theorem runScan_noWork (b : Bool) (now : Nat) (c : Catalog) (fs : List FileRec)
    (hw : hasWork b c fs = false) :
    runScan b now c fs = (c, [(Status.info, "Nothing to do!")]) := by
  unfold runScan
  rw [if_neg (by rw [hw]; exact Bool.false_ne_true)]

/-- Claim C6: after an Update in which some catalog song's path is gone
from disk, every artist left in the catalog is the "Various" sentinel or is
still referenced by a song in some role or owns an album (so every
unreferenced non-sentinel artist was removed), the "Various" sentinel
itself survives, and every album left owns at least one song (so every
album whose last song went away was removed). -/
theorem claim_c6 (now : Nat) (c : Catalog) (fs : List FileRec)
    (hdel : ∃ s ∈ c.songs, ∀ f ∈ fs, f.path ≠ s.filename) :
    (∀ a ∈ c.artists, a.various = true →
      ∃ a' ∈ (App.update now c fs).1.artists, a'.id = a.id ∧ a'.various = true) ∧
    (∀ a ∈ (App.update now c fs).1.artists, a.various = false →
      referencedBy (App.update now c fs).1.albums (App.update now c fs).1.songs a = true) ∧
    (∀ al ∈ (App.update now c fs).1.albums,
      ∃ s ∈ (App.update now c fs).1.songs, s.albumId = al.id) := by
  have hw : hasWork true c fs = true := by
    obtain ⟨s, hs, hnf⟩ := hdel
    unfold hasWork
    apply Bool.or_eq_true_iff.mpr
    right
    rw [Bool.true_and]
    apply List.any_eq_true.mpr
    refine ⟨s, hs, ?_⟩
    rw [Bool.not_eq_true']
    apply List.any_eq_false.mpr
    intro f hf hbeq
    exact hnf f hf (eq_of_beq hbeq)
  have hupd : App.update now c fs = runScan true now c fs := rfl
  rw [hupd, runScan_work true now c fs hw]
  set acc := syncPhase true now c fs with hacc
  set artists1 := ensureVarious acc.artists with ha1
  set vid := variousId artists1 with hvid
  set asg := albumPhase c artists1 acc.entries with hasg
  refine ⟨?_, ?_, ?_⟩
  · intro a ha hav
    have hev : ArtistsEvolve c.artists artists1 :=
      artistsEvolve_trans
        (foldl_processFile_evolve true now c fs
          ⟨keptSongs true c fs, c.artists, goneSongs true c fs, maxSongId c.songs + 1, []⟩)
        (ensureVarious_evolve acc.artists)
    obtain ⟨a', ha', hid, _, hv⟩ := hev.1 a ha
    refine ⟨a', ?_, hid, by rw [hv, hav]⟩
    apply List.mem_filter.mpr
    refine ⟨ha', ?_⟩
    rw [hv, hav]
    rfl
  · intro a ha hav
    have := (List.mem_filter.mp ha).2
    rw [hav, Bool.false_or] at this
    exact this
  · intro al hal
    rw [applyAssignment_fst] at hal
    obtain ⟨gi, hgi, hbuild⟩ := List.mem_map.mp hal
    have hg1 : gi.1 ∈ groupify acc.entries := by
      rw [← albumPhase_firsts c artists1 acc.entries, ← hasg]
      exact List.mem_map_of_mem Prod.fst hgi
    have hne : gi.1.2 ≠ [] := ((groupify_sound acc.entries).2 gi.1 hg1).2
    obtain ⟨e, he⟩ := List.exists_mem_of_ne_nil gi.1.2 hne
    refine ⟨{ e.song with albumId := gi.2 }, ?_, ?_⟩
    · rw [applyAssignment_snd]
      apply List.mem_flatMap.mpr
      exact ⟨gi, hgi, List.mem_map_of_mem _ he⟩
    · rw [← hbuild]
      simp [buildAlbum]

/-- Witness for claim C6 at a concrete deletion: of two songs by one
artist, one file disappears; the surviving artist row is still referenced
by the surviving album and song. -/
theorem claim_c6_witness :
    referencedBy
      (App.update 1 (App.add 0 initialCatalog
        [scanFile "song.mp3" "Artist" "Album" "T1" "s1",
         scanFile "song2.mp3" "Artist" "Album" "T2" "s2"]).1
        [scanFile "song.mp3" "Artist" "Album" "T1" "s1"]).1.albums
      (App.update 1 (App.add 0 initialCatalog
        [scanFile "song.mp3" "Artist" "Album" "T1" "s1",
         scanFile "song2.mp3" "Artist" "Album" "T2" "s2"]).1
        [scanFile "song.mp3" "Artist" "Album" "T1" "s1"]).1.songs
      ⟨2, "Artist", "", false⟩ = true :=
  (claim_c6 1 (App.add 0 initialCatalog
      [scanFile "song.mp3" "Artist" "Album" "T1" "s1",
       scanFile "song2.mp3" "Artist" "Album" "T2" "s2"]).1
    [scanFile "song.mp3" "Artist" "Album" "T1" "s1"] (by decide)).2.1
    ⟨2, "Artist", "", false⟩ (by decide) rfl

/-- Claim C1: after any completed Add or Update run that had
reconciliation work to do (or whose input already satisfied it), every
album's owning artist is the sole distinct primary artist of its songs
when there is exactly one, and the "Various" sentinel when there are more
than one. -/
theorem claim_c1 (b : Bool) (now : Nat) (c : Catalog) (fs : List FileRec)
    (h : hasWork b c fs = true ∨ ownershipInv c) :
    ownershipInv (runScan b now c fs).1 := by
  cases hw : hasWork b c fs with
  | false =>
    have hinv : ownershipInv c := by
      rcases h with h | h
      · rw [hw] at h; cases h
      · exact h
    rw [runScan_noWork b now c fs hw]
    exact hinv
  | true =>
    rw [runScan_work b now c fs hw]
    set acc := syncPhase b now c fs with hacc
    set artists1 := ensureVarious acc.artists with ha1
    set asg := albumPhase c artists1 acc.entries with hasg
    have hnd : (asg.map Prod.snd).Nodup := albumPhase_ids_nodup c artists1 acc.entries
    intro al hal
    rw [applyAssignment_fst] at hal
    obtain ⟨gi, hgi, hbuild⟩ := List.mem_map.mp hal
    have hg1 : gi.1 ∈ groupify acc.entries := by
      rw [← albumPhase_firsts c artists1 acc.entries, ← hasg]
      exact List.mem_map_of_mem Prod.fst hgi
    have hgial : gi.2 = al.id := by rw [← hbuild]; rfl
    have hsongs : (applyAssignment artists1 (variousId artists1) asg).2.filter
        (fun s => s.albumId == al.id) =
        gi.1.2.map (fun e => { e.song with albumId := al.id }) := by
      rw [applyAssignment_snd]
      have := filter_flatMap_block (i := al.id) hnd
        (show (gi.1, al.id) ∈ asg from by rw [← hgial]; exact hgi)
      exact this
    have hmapmap : (gi.1.2.map (fun e => { e.song with albumId := al.id })).map
        (fun s => s.artistId) = gi.1.2.map (fun e => e.song.artistId) := by
      rw [List.map_map]
      apply List.map_congr_left
      intro e _
      rfl
    show (∀ x, (((applyAssignment artists1 (variousId artists1) asg).2.filter
        (fun s => s.albumId == al.id)).map (fun s => s.artistId)).dedup = [x] →
        al.artistId = x) ∧
      (2 ≤ (((applyAssignment artists1 (variousId artists1) asg).2.filter
        (fun s => s.albumId == al.id)).map (fun s => s.artistId)).dedup.length →
        ∃ v ∈ gcArtists artists1 (applyAssignment artists1 (variousId artists1) asg).1
          (applyAssignment artists1 (variousId artists1) asg).2,
          v.various = true ∧ al.artistId = v.id)
    rw [hsongs, hmapmap]
    have halartist : al.artistId = ownerOf (variousId artists1) gi.1.1 gi.1.2 := by
      rw [← hbuild]; rfl
    cases hk : gi.1.1 with
    | misc aid =>
      have hall : ∀ y ∈ gi.1.2.map (fun e => e.song.artistId), y = aid := by
        intro y hy
        obtain ⟨e, he, hye⟩ := List.mem_map.mp hy
        have hkey : e.key = gi.1.1 := ((groupify_sound acc.entries).2 gi.1 hg1).1 e he
        have hcoh : entryCoherent e :=
          syncPhase_coherent b now c fs e (groupify_sub acc.entries gi.1 hg1 e he)
        rw [← hye]
        exact hcoh aid (by rw [hkey, hk])
      have hne : gi.1.2.map (fun e => e.song.artistId) ≠ [] := by
        have := ((groupify_sound acc.entries).2 gi.1 hg1).2
        simp [this]
      have hded : (gi.1.2.map (fun e => e.song.artistId)).dedup = [aid] :=
        dedup_all_eq hne hall
      constructor
      · intro x hx
        rw [hded] at hx
        have hax : aid = x := by injection hx
        rw [halartist, hk, ← hax]
        rfl
      · intro hlen
        rw [hded] at hlen
        simp at hlen
    | named n =>
      constructor
      · intro x hx
        rw [halartist, hk]
        show (match (gi.1.2.map (fun e => e.song.artistId)).dedup with
          | [a] => a
          | _ => variousId artists1) = x
        rw [hx]
      · intro hlen
        obtain ⟨v, hv, hvv, hvid⟩ := ensureVarious_has acc.artists
        refine ⟨v, ?_, hvv, ?_⟩
        · apply List.mem_filter.mpr
          refine ⟨hv, ?_⟩
          rw [hvv]
          rfl
        · rw [halartist, hk]
          show (match (gi.1.2.map (fun e => e.song.artistId)).dedup with
            | [a] => a
            | _ => variousId artists1) = v.id
          cases hdd : (gi.1.2.map (fun e => e.song.artistId)).dedup with
          | nil =>
            rw [hdd] at hlen
            simp at hlen
          | cons a t =>
            cases t with
            | nil =>
              rw [hdd] at hlen
              simp at hlen
            | cons a2 t2 =>
              exact hvid.symm

/-- Witness for claim C1 at a concrete run: adding one file to the
initial catalog yields a catalog satisfying the ownership invariant. -/
theorem claim_c1_witness :
    ownershipInv (runScan true 0 initialCatalog
      [scanFile "song.mp3" "Artist" "Album" "Title" "abc"]).1 :=
  claim_c1 true 0 initialCatalog [scanFile "song.mp3" "Artist" "Album" "Title" "abc"]
    (Or.inl (by decide))

/-! ## Idempotence of Update (claim C2) -/

theorem processFile_pairs (now : Nat) (c : Catalog) (acc : SyncAcc) (f : FileRec) :
    (processFile true now c acc f).entries.map entryPair =
      acc.entries.map entryPair ++ [(f.path, f.sha256)] := by
  unfold processFile
  split
  · rename_i s hf
    have hsf : s.filename = f.path := by
      have h := List.find?_some hf
      exact eq_of_beq h
    split
    · rw [List.map_append]
      congr 1
      simp [entryPair, songFromUpdate, hsf]
    · rename_i hcond
      have hsha : s.sha256sum = f.sha256 := by
        by_contra hne
        exact hcond ⟨rfl, hne⟩
      rw [List.map_append]
      congr 1
      simp [entryPair, hsf, hsha]
  · split
    · rename_i g hg
      have hgs : g.sha256sum = f.sha256 := by
        have h := List.find?_some hg
        exact eq_of_beq h
      rw [List.map_append]
      congr 1
      simp [entryPair, hgs]
    · rw [List.map_append]
      congr 1

theorem syncPhase_pairs (now : Nat) (c : Catalog) (fs : List FileRec) :
    (syncPhase true now c fs).entries.map entryPair =
      fs.map (fun f => (f.path, f.sha256)) := by
  unfold syncPhase
  have h : ∀ (l : List FileRec) (acc : SyncAcc),
      (l.foldl (processFile true now c) acc).entries.map entryPair =
        acc.entries.map entryPair ++ l.map (fun f => (f.path, f.sha256)) := by
    intro l
    induction l with
    | nil => intro acc; simp
    | cons f l ih =>
      intro acc
      rw [List.foldl_cons, ih, processFile_pairs]
      simp
  rw [h fs _]
  simp [keptSongs]

theorem runScan_songs_to_entries (b : Bool) (now : Nat) (c : Catalog) (fs : List FileRec)
    (hw : hasWork b c fs = true) :
    ∀ s ∈ (runScan b now c fs).1.songs, ∃ e ∈ (syncPhase b now c fs).entries,
      e.song.filename = s.filename ∧ e.song.sha256sum = s.sha256sum := by
  intro s hs
  rw [runScan_work b now c fs hw] at hs
  simp only [applyAssignment_snd] at hs
  obtain ⟨gi, hgi, hsg⟩ := List.mem_flatMap.mp hs
  obtain ⟨e, he, hse⟩ := List.mem_map.mp hsg
  have hg1 : gi.1 ∈ groupify (syncPhase b now c fs).entries := by
    rw [← albumPhase_firsts c (ensureVarious (syncPhase b now c fs).artists)
      (syncPhase b now c fs).entries]
    exact List.mem_map_of_mem Prod.fst hgi
  refine ⟨e, groupify_sub _ gi.1 hg1 e he, ?_, ?_⟩ <;> rw [← hse]

theorem runScan_entries_to_songs (b : Bool) (now : Nat) (c : Catalog) (fs : List FileRec)
    (hw : hasWork b c fs = true) :
    ∀ e ∈ (syncPhase b now c fs).entries, ∃ s ∈ (runScan b now c fs).1.songs,
      s.filename = e.song.filename ∧ s.sha256sum = e.song.sha256sum := by
  intro e he
  obtain ⟨g, hg, heg⟩ := groupify_covers (syncPhase b now c fs).entries e he
  have hg1 : g ∈ (albumPhase c (ensureVarious (syncPhase b now c fs).artists)
      (syncPhase b now c fs).entries).map Prod.fst := by
    rw [albumPhase_firsts]
    exact hg
  obtain ⟨gi, hgi, hfst⟩ := List.mem_map.mp hg1
  refine ⟨{ e.song with albumId := gi.2 }, ?_, rfl, rfl⟩
  rw [runScan_work b now c fs hw]
  simp only [applyAssignment_snd]
  apply List.mem_flatMap.mpr
  refine ⟨gi, hgi, ?_⟩
  apply List.mem_map_of_mem
  rw [hfst]
  exact heg

/-- Claim C2: running Update twice in succession over the same
filesystem produces no catalog mutation on the second run — the catalog
after the second run is exactly the catalog after the first — and the
second run's report is the single informational "nothing to do" marker. -/
theorem claim_c2 (now now2 : Nat) (c : Catalog) (fs : List FileRec)
    (hnd : (fs.map FileRec.path).Nodup) :
    App.update now2 (App.update now c fs).1 fs =
      ((App.update now c fs).1, [(Status.info, "Nothing to do!")]) := by
  show runScan true now2 (runScan true now c fs).1 fs =
    ((runScan true now c fs).1, [(Status.info, "Nothing to do!")])
  cases hw : hasWork true c fs with
  | false =>
    rw [runScan_noWork true now c fs hw]
    exact runScan_noWork true now2 c fs hw
  | true =>
    have hpairs := syncPhase_pairs now c fs
    have hforward : ∀ f ∈ fs, ∃ s ∈ (runScan true now c fs).1.songs,
        s.filename = f.path ∧ s.sha256sum = f.sha256 := by
      intro f hf
      have hmem : (f.path, f.sha256) ∈ (syncPhase true now c fs).entries.map entryPair := by
        rw [hpairs]
        exact List.mem_map_of_mem _ hf
      obtain ⟨e, he, hpe⟩ := List.mem_map.mp hmem
      obtain ⟨s, hs, hs1, hs2⟩ := runScan_entries_to_songs true now c fs hw e he
      refine ⟨s, hs, ?_, ?_⟩
      · rw [hs1, show e.song.filename = f.path from congrArg Prod.fst hpe]
      · rw [hs2, show e.song.sha256sum = f.sha256 from congrArg Prod.snd hpe]
    have hbackward : ∀ s ∈ (runScan true now c fs).1.songs, ∃ f ∈ fs,
        f.path = s.filename ∧ f.sha256 = s.sha256sum := by
      intro s hs
      obtain ⟨e, he, he1, he2⟩ := runScan_songs_to_entries true now c fs hw s hs
      have hmem : entryPair e ∈ fs.map (fun f => (f.path, f.sha256)) := by
        rw [← hpairs]
        exact List.mem_map_of_mem _ he
      obtain ⟨f, hf, hpf⟩ := List.mem_map.mp hmem
      refine ⟨f, hf, ?_, ?_⟩
      · rw [show f.path = e.song.filename from congrArg Prod.fst hpf, he1]
      · rw [show f.sha256 = e.song.sha256sum from congrArg Prod.snd hpf, he2]
    have hw2 : hasWork true (runScan true now c fs).1 fs = false := by
      unfold hasWork
      apply Bool.or_eq_false_iff.mpr
      constructor
      · apply List.any_eq_false.mpr
        intro f hf
        cases hfind : (runScan true now c fs).1.songs.find? (fun s => s.filename == f.path) with
        | none =>
          obtain ⟨s, hs, hs1, _⟩ := hforward f hf
          rw [List.find?_eq_none] at hfind
          exact absurd (beq_of_eq hs1) (hfind s hs)
        | some s =>
          have hsmem := List.mem_of_find?_eq_some hfind
          have hsf : s.filename = f.path := by
            have h := List.find?_some hfind
            exact eq_of_beq h
          obtain ⟨f', hf', hp1, hp2⟩ := hbackward s hsmem
          have hff : f' = f := nodup_map_inj hnd hf' hf (by rw [hp1, hsf])
          have hsha : s.sha256sum = f.sha256 := by rw [← hp2, hff]
          simp [hsha]
      · rw [Bool.true_and]
        apply List.any_eq_false.mpr
        intro s hs
        obtain ⟨f, hf, hp1, _⟩ := hbackward s hs
        have hany : fs.any (fun f => f.path == s.filename) = true :=
          List.any_eq_true.mpr ⟨f, hf, beq_of_eq hp1⟩
        simp [hany]
    exact runScan_noWork true now2 (runScan true now c fs).1 fs hw2

/-- Witness for claim C2 at a concrete library of one file: the second
update changes nothing and reports only the marker. -/
theorem claim_c2_witness :
    App.update 2 (App.update 1 initialCatalog
        [scanFile "a.mp3" "Artist" "Album" "T" "s1"]).1
      [scanFile "a.mp3" "Artist" "Album" "T" "s1"] =
      ((App.update 1 initialCatalog [scanFile "a.mp3" "Artist" "Album" "T" "s1"]).1,
       [(Status.info, "Nothing to do!")]) :=
  claim_c2 1 2 initialCatalog [scanFile "a.mp3" "Artist" "Album" "T" "s1"] (by decide)

/-! ## Sticky prefix policy (claim C5) -/

theorem evolve_sticky {src dst : List Artist} (h : ArtistsEvolve src dst)
    (hnd : (src.map Artist.id).Nodup) {a : Artist} (ha : a ∈ src) (hpfx : a.pfx ≠ "")
    {a' : Artist} (ha' : a' ∈ dst) (hid : a'.id = a.id) : a'.pfx = a.pfx := by
  rcases h.2.1 a' ha' with ⟨a2, ha2, hid2, hrel⟩ | hfresh
  · have ha2a : a2 = a := nodup_map_inj hnd ha2 ha (by rw [← hid2]; exact hid)
    subst ha2a
    rcases hrel with hrel | ⟨he, _⟩
    · exact hrel
    · exact absurd he hpfx
  · have := maxArtistId_mem ha
    omega

/-- Claim C5: during artist resolution a stored article is overwritten
only when the stored one is empty and the new one is non-empty; hence
through any completed Add or Update run, an artist whose stored article is
non-empty keeps exactly that article. -/
theorem claim_c5 :
    (∀ (artists : List Artist) (raw : String), (artists.map Artist.id).Nodup →
      ∀ a ∈ artists, ∀ a' ∈ (resolveArtist artists raw).2, a'.id = a.id →
        a'.pfx = a.pfx ∨ (a.pfx = "" ∧ a'.pfx ≠ "")) ∧
    (∀ (b : Bool) (now : Nat) (c : Catalog) (fs : List FileRec),
      (c.artists.map Artist.id).Nodup → ∀ a ∈ c.artists, a.pfx ≠ "" →
      ∀ a' ∈ (runScan b now c fs).1.artists, a'.id = a.id → a'.pfx = a.pfx) := by
  constructor
  · intro artists raw hnd a ha a' ha' hid
    have hev := resolveArtist_evolve artists raw
    rcases hev.2.1 a' ha' with ⟨a2, ha2, hid2, hrel⟩ | hfresh
    · have ha2a : a2 = a := nodup_map_inj hnd ha2 ha (by rw [← hid2]; exact hid)
      subst ha2a
      exact hrel
    · have := maxArtistId_mem ha
      omega
  · intro b now c fs hnd a ha hpfx a' ha' hid
    cases hw : hasWork b c fs with
    | false =>
      rw [runScan_noWork b now c fs hw] at ha'
      have ha'' : a' ∈ c.artists := ha'
      have haa : a' = a := nodup_map_inj hnd ha'' ha hid
      rw [haa]
    | true =>
      rw [runScan_work b now c fs hw] at ha'
      have ha1 : a' ∈ ensureVarious (syncPhase b now c fs).artists :=
        (List.mem_filter.mp ha').1
      have hev : ArtistsEvolve c.artists (ensureVarious (syncPhase b now c fs).artists) :=
        artistsEvolve_trans
          (foldl_processFile_evolve b now c fs
            ⟨keptSongs b c fs, c.artists, goneSongs b c fs, maxSongId c.songs + 1, []⟩)
          (ensureVarious_evolve _)
      exact evolve_sticky hev hnd ha hpfx ha1 hid

/-- Witness for claim C5: an artist first seen as "The Artist" keeps the
article "The" after its file is re-tagged with the bare name "Artist". -/
theorem claim_c5_witness : (⟨2, "Artist", "The", false⟩ : Artist).pfx = "The" :=
  claim_c5.2 true 1 (App.add 0 initialCatalog
      [scanFile "a.mp3" "The Artist" "Album" "T" "s1"]).1
    [scanFile "a.mp3" "Artist" "Album" "T" "s2"] (by decide)
    ⟨2, "Artist", "The", false⟩ (by decide) (by decide)
    ⟨2, "Artist", "The", false⟩ (by decide) rfl

/-! ## Add versus Update (claim C7) -/

theorem processFold_add_eq_update (now : Nat) (c : Catalog) (hsongs : c.songs = []) :
    ∀ (l : List FileRec) (acc : SyncAcc), acc.gone = [] →
      l.foldl (processFile true now c) acc = l.foldl (processFile false now c) acc := by
  intro l
  induction l with
  | nil => intro acc _; rfl
  | cons f l ih =>
    intro acc hgone
    rw [List.foldl_cons, List.foldl_cons]
    have hstep : processFile true now c acc f = processFile false now c acc f := by
      unfold processFile
      rw [hsongs, hgone]
      simp only [List.find?_nil]
    have hstepgone : (processFile false now c acc f).gone = [] := by
      unfold processFile
      rw [hsongs, hgone]
      simp only [List.find?_nil]
    rw [hstep]
    exact ih (processFile false now c acc f) hstepgone

/-- Corrected claim C7: when the catalog holds no song rows (so in
particular every on-disk path is never seen), Add and Update produce the
same catalog and the same report.  The unqualified claim fails because
Update additionally deletes catalog songs missing from disk while Add
leaves them alone; see the counterexample. -/
theorem claim_c7 (now : Nat) (c : Catalog) (fs : List FileRec) (hsongs : c.songs = []) :
    App.add now c fs = App.update now c fs := by
  show runScan false now c fs = runScan true now c fs
  have hwork : hasWork false c fs = hasWork true c fs := by
    unfold hasWork
    rw [hsongs]
    simp
  have hgone : goneSongs true c fs = goneSongs false c fs := by
    unfold goneSongs
    rw [hsongs]
    simp
  have hkept : keptSongs true c fs = keptSongs false c fs := by
    unfold keptSongs
    rw [hsongs]
    simp
  have hsync : syncPhase true now c fs = syncPhase false now c fs := by
    unfold syncPhase
    rw [hgone, hkept]
    apply processFold_add_eq_update now c hsongs
    show goneSongs false c fs = []
    rfl
  cases hw : hasWork true c fs with
  | false =>
    rw [runScan_noWork true now c fs hw, runScan_noWork false now c fs (by rw [hwork]; exact hw)]
  | true =>
    rw [runScan_work true now c fs hw, runScan_work false now c fs (by rw [hwork]; exact hw),
      hsync]

/-- Counterexample to claim C7 as stated: a library whose only path has
never been seen by the catalog, on which Add and Update nevertheless
disagree, because the catalog still holds a song whose file is gone and
only Update deletes it. -/
theorem claim_c7_counterexample :
    ([scanFile "new.mp3" "Artist B" "Album B" "T2" "sn"].all (fun f =>
      (App.add 0 initialCatalog [scanFile "old.mp3" "Artist" "Album" "T" "so"]).1.songs.all
        (fun s => decide (f.path ≠ s.filename)))) = true ∧
    (App.add 1 (App.add 0 initialCatalog [scanFile "old.mp3" "Artist" "Album" "T" "so"]).1
        [scanFile "new.mp3" "Artist B" "Album B" "T2" "sn"]).1 ≠
      (App.update 1 (App.add 0 initialCatalog [scanFile "old.mp3" "Artist" "Album" "T" "so"]).1
        [scanFile "new.mp3" "Artist B" "Album B" "T2" "sn"]).1 := by
  constructor <;> decide

/-- Witness for the corrected claim C7: on the initial catalog Add and
Update of one new file agree. -/
theorem claim_c7_witness :
    App.add 0 initialCatalog [scanFile "a.mp3" "Artist" "Album" "T" "s1"] =
      App.update 0 initialCatalog [scanFile "a.mp3" "Artist" "Album" "T" "s1"] :=
  claim_c7 0 initialCatalog [scanFile "a.mp3" "Artist" "Album" "T" "s1"] rfl

/-! ## Album-key uniqueness and merging (claim C4) -/

theorem find_album_of_asg (artists1 : List Artist) (vid : Nat)
    {asg : List ((AlbumKey × List SongEntry) × Nat)} (hnd : (asg.map Prod.snd).Nodup)
    {gi : (AlbumKey × List SongEntry) × Nat} (hgi : gi ∈ asg) :
    (asg.map (fun gj => buildAlbum artists1 vid gj.1 gj.2)).find? (fun al => al.id == gi.2) =
      some (buildAlbum artists1 vid gi.1 gi.2) := by
  induction asg with
  | nil => cases hgi
  | cons hd tl ih =>
    rw [List.map_cons, List.nodup_cons] at hnd
    rcases List.mem_cons.mp hgi with rfl | htl
    · rw [List.map_cons]
      apply List.find?_cons_of_pos
      simp [buildAlbum]
    · have hne : hd.2 ≠ gi.2 := by
        intro hi
        apply hnd.1
        rw [hi]
        exact List.mem_map_of_mem Prod.snd htl
      rw [List.map_cons]
      rw [List.find?_cons_of_neg]
      · exact ih hnd.2 htl
      · simp [buildAlbum, hne]

/-- Claim C4 (amended): after any run with work to do, any two songs whose
album keys agree — the key being the miscellaneous-or-named album identity,
which carries the owning artist for miscellaneous buckets and the
normalized name for regular albums — belong to exactly one album row; and,
concretely, two previously-distinct album rows sharing the same
(owning artist, name) key are merged into the row with the lower primary
key, which absorbs all songs while the other is deleted. -/
theorem claim_c4 :
    (∀ (b : Bool) (now : Nat) (c : Catalog) (fs : List FileRec),
      hasWork b c fs = true →
      ∀ s1 ∈ (runScan b now c fs).1.songs, ∀ s2 ∈ (runScan b now c fs).1.songs,
        keyOfCatalog (runScan b now c fs).1 s1 = keyOfCatalog (runScan b now c fs).1 s2 →
        s1.albumId = s2.albumId) ∧
    ((App.update 1 mergeCatalog
        [scanFile "d1/f1.mp3" "Artist 1" "Album" "T1" "e1",
         scanFile "d2/f2.mp3" "Artist 1" "Album" "T2" "e2x"]).1.albums.map
        (fun a => (a.id, a.artistId, a.name)) = [(1, 2, "Album")] ∧
      (App.update 1 mergeCatalog
        [scanFile "d1/f1.mp3" "Artist 1" "Album" "T1" "e1",
         scanFile "d2/f2.mp3" "Artist 1" "Album" "T2" "e2x"]).1.songs.map
        (fun s => (s.filename, s.albumId)) = [("d1/f1.mp3", 1), ("d2/f2.mp3", 1)]) := by
  constructor
  · intro b now c fs hw s1 hs1 s2 hs2 hkey
    rw [runScan_work b now c fs hw] at hs1 hs2 hkey
    set acc := syncPhase b now c fs with hacc
    set artists1 := ensureVarious acc.artists with ha1
    set asg := albumPhase c artists1 acc.entries with hasg
    have hnd : (asg.map Prod.snd).Nodup := albumPhase_ids_nodup c artists1 acc.entries
    have hkeys : (asg.map (fun gi => gi.1.1)).Nodup := by
      have h1 : asg.map (fun gi => gi.1.1) = (asg.map Prod.fst).map Prod.fst := by
        rw [List.map_map]
        rfl
      rw [h1, hasg, albumPhase_firsts]
      exact (groupify_sound acc.entries).1
    have hsongkey : ∀ s ∈ (applyAssignment artists1 (variousId artists1) asg).2,
        ∃ gi ∈ asg, s.albumId = gi.2 ∧
          keyOfCatalog ⟨gcArtists artists1 (applyAssignment artists1 (variousId artists1) asg).1
              (applyAssignment artists1 (variousId artists1) asg).2,
            (applyAssignment artists1 (variousId artists1) asg).1,
            (applyAssignment artists1 (variousId artists1) asg).2⟩ s = gi.1.1 := by
      intro s hs
      rw [applyAssignment_snd] at hs
      obtain ⟨gi, hgi, hsg⟩ := List.mem_flatMap.mp hs
      obtain ⟨e, he, hse⟩ := List.mem_map.mp hsg
      refine ⟨gi, hgi, by rw [← hse], ?_⟩
      have hg1 : gi.1 ∈ groupify acc.entries := by
        rw [← albumPhase_firsts c artists1 acc.entries, ← hasg]
        exact List.mem_map_of_mem Prod.fst hgi
      have hfind : ((applyAssignment artists1 (variousId artists1) asg).1).find?
          (fun al => al.id == s.albumId) = some (buildAlbum artists1 (variousId artists1)
            gi.1 gi.2) := by
        rw [applyAssignment_fst]
        have hid : s.albumId = gi.2 := by rw [← hse]
        rw [hid]
        exact find_album_of_asg artists1 (variousId artists1) hnd hgi
      unfold keyOfCatalog
      rw [hfind]
      show (if (buildAlbum artists1 (variousId artists1) gi.1 gi.2).miscellaneous then
        AlbumKey.misc s.artistId else
        AlbumKey.named (buildAlbum artists1 (variousId artists1) gi.1 gi.2).name) = gi.1.1
      cases hk : gi.1.1 with
      | misc aid =>
        have hmisc : (buildAlbum artists1 (variousId artists1) gi.1 gi.2).miscellaneous =
            true := by
          simp [buildAlbum, keyMisc, hk]
        rw [if_pos hmisc]
        have hkey : e.key = gi.1.1 := ((groupify_sound acc.entries).2 gi.1 hg1).1 e he
        have hcoh : entryCoherent e :=
          syncPhase_coherent b now c fs e (groupify_sub acc.entries gi.1 hg1 e he)
        have hart : s.artistId = aid := by
          rw [← hse]
          exact hcoh aid (by rw [hkey, hk])
        rw [hart]
      | named n =>
        have hmisc : (buildAlbum artists1 (variousId artists1) gi.1 gi.2).miscellaneous =
            false := by
          simp [buildAlbum, keyMisc, hk]
        rw [if_neg (by rw [hmisc]; exact Bool.false_ne_true)]
        simp [buildAlbum, keyName, hk]
    obtain ⟨gi1, hgi1, hid1, hk1⟩ := hsongkey s1 hs1
    obtain ⟨gi2, hgi2, hid2, hk2⟩ := hsongkey s2 hs2
    have : gi1 = gi2 := by
      apply nodup_map_inj hkeys hgi1 hgi2
      show gi1.1.1 = gi2.1.1
      rw [← hk1, ← hk2]
      exact hkey
    rw [hid1, hid2, this]
  · constructor <;> decide

/-- Witness for claim C4's universal part at a concrete run. -/
theorem claim_c4_witness :
    ∀ s1 ∈ (runScan true 0 initialCatalog
        [scanFile "a.mp3" "A" "X" "T1" "s1", scanFile "b.mp3" "A" "X" "T2" "s2"]).1.songs,
      ∀ s2 ∈ (runScan true 0 initialCatalog
        [scanFile "a.mp3" "A" "X" "T1" "s1", scanFile "b.mp3" "A" "X" "T2" "s2"]).1.songs,
        keyOfCatalog (runScan true 0 initialCatalog
          [scanFile "a.mp3" "A" "X" "T1" "s1", scanFile "b.mp3" "A" "X" "T2" "s2"]).1 s1 =
          keyOfCatalog (runScan true 0 initialCatalog
            [scanFile "a.mp3" "A" "X" "T1" "s1", scanFile "b.mp3" "A" "X" "T2" "s2"]).1 s2 →
        s1.albumId = s2.albumId :=
  claim_c4.1 true 0 initialCatalog
    [scanFile "a.mp3" "A" "X" "T1" "s1", scanFile "b.mp3" "A" "X" "T2" "s2"] (by decide)

/-- Counterexample to claim C4 as frozen: with the key read as the bare
(owning artist, normalized album name) pair, a song with no album tag and
a song whose album tag spells the non-album template name end up in two
different album rows that share owning artist and name (they differ only
in the miscellaneous flag). -/
theorem claim_c4_counterexample :
    ((App.add 0 initialCatalog
        [scanFile "a.mp3" "Artist" "" "T1" "k1",
         scanFile "b.mp3" "Artist" "Non-Album Tracks: Artist" "T2" "k2"]).1.albums.map
      (fun a => (a.id, a.artistId, a.name, a.miscellaneous)) =
      [(1, 2, "Non-Album Tracks: Artist", true), (2, 2, "Non-Album Tracks: Artist", false)]) ∧
    ((App.add 0 initialCatalog
        [scanFile "a.mp3" "Artist" "" "T1" "k1",
         scanFile "b.mp3" "Artist" "Non-Album Tracks: Artist" "T2" "k2"]).1.songs.map
      (fun s => s.albumId) = [1, 2]) := by
  constructor <;> decide

/-! ## Album split (claim C3) and file move (claim C9) -/

/-- Evaluation of the initial Add of the split scenario to a literal
catalog: one album row holding both songs. -/
theorem c3_add_eval (t1 t2 : String) :
    (App.add 0 initialCatalog
        [scanFile "song1.mp3" "Artist 1" "Album 1" t1 "s1",
         scanFile "song2.mp3" "Artist 1" "Album 1" t2 "s2"]).1 =
    ⟨[⟨1, "Various", "", true⟩, ⟨2, "Artist 1", "", false⟩],
     [⟨1, 2, "Album 1", false⟩],
     [⟨1, "song1.mp3", 2, none, none, none, 1, t1, 2000, 1, "s1", "mp3", 128,
       "VBR", 100, 60, 0, 0⟩,
      ⟨2, "song2.mp3", 2, none, none, none, 1, t2, 2000, 1, "s2", "mp3", 128,
       "VBR", 100, 60, 0, 0⟩]⟩ := rfl

/-- Evaluation of the diverging Update of the split scenario on the
literal catalog produced by the initial Add: the album splits in two, the
original row keeping primary key 1 for the unrenamed subset. -/
theorem c3_upd_eval (t1 t2 : String) :
    (App.update 1
      (⟨[⟨1, "Various", "", true⟩, ⟨2, "Artist 1", "", false⟩],
        [⟨1, 2, "Album 1", false⟩],
        [⟨1, "song1.mp3", 2, none, none, none, 1, t1, 2000, 1, "s1", "mp3", 128,
          "VBR", 100, 60, 0, 0⟩,
         ⟨2, "song2.mp3", 2, none, none, none, 1, t2, 2000, 1, "s2", "mp3", 128,
          "VBR", 100, 60, 0, 0⟩]⟩ : Catalog)
      [scanFile "song1.mp3" "Artist 1" "Album 1" t1 "s1",
       scanFile "song2.mp3" "Artist 1" "Album 2" t2 "s2x"]).1 =
    ⟨[⟨1, "Various", "", true⟩, ⟨2, "Artist 1", "", false⟩],
     [⟨1, 2, "Album 1", false⟩, ⟨2, 2, "Album 2", false⟩],
     [⟨1, "song1.mp3", 2, none, none, none, 1, t1, 2000, 1, "s1", "mp3", 128,
       "VBR", 100, 60, 0, 0⟩,
      ⟨2, "song2.mp3", 2, none, none, none, 2, t2, 2000, 1, "s2x", "mp3", 128,
       "VBR", 100, 60, 0, 1⟩]⟩ := rfl

/-- Claim C3: an album of two songs whose album tags diverge into two
distinct names splits into exactly two album rows, each owning the correct
subset of songs, and the originally-created row's primary key survives for
the subset that does not trigger a rename (stated over the scenario of the
cited tests, for arbitrary titles). -/
theorem claim_c3 (t1 t2 : String) :
    ((App.add 0 initialCatalog
        [scanFile "song1.mp3" "Artist 1" "Album 1" t1 "s1",
         scanFile "song2.mp3" "Artist 1" "Album 1" t2 "s2"]).1.albums.map
      (fun a => (a.id, a.artistId, a.name, a.miscellaneous)) =
      [(1, 2, "Album 1", false)]) ∧
    ((App.update 1 (App.add 0 initialCatalog
        [scanFile "song1.mp3" "Artist 1" "Album 1" t1 "s1",
         scanFile "song2.mp3" "Artist 1" "Album 1" t2 "s2"]).1
      [scanFile "song1.mp3" "Artist 1" "Album 1" t1 "s1",
       scanFile "song2.mp3" "Artist 1" "Album 2" t2 "s2x"]).1.albums.map
      (fun a => (a.id, a.artistId, a.name, a.miscellaneous)) =
      [(1, 2, "Album 1", false), (2, 2, "Album 2", false)]) ∧
    ((App.update 1 (App.add 0 initialCatalog
        [scanFile "song1.mp3" "Artist 1" "Album 1" t1 "s1",
         scanFile "song2.mp3" "Artist 1" "Album 1" t2 "s2"]).1
      [scanFile "song1.mp3" "Artist 1" "Album 1" t1 "s1",
       scanFile "song2.mp3" "Artist 1" "Album 2" t2 "s2x"]).1.songs.map
      (fun s => (s.id, s.filename, s.albumId, s.title)) =
      [(1, "song1.mp3", 1, t1), (2, "song2.mp3", 2, t2)]) := by
  rw [c3_add_eval, c3_upd_eval]
  exact ⟨rfl, rfl, rfl⟩

/-- Evaluation of the initial Add of the move scenario to a literal
catalog. -/
theorem c9_add_eval (t tr ft md : String) (y br sz ln : Nat) :
    (App.add 5 initialCatalog
        [scanFileFull "starting/song.mp3" "Artist" "Album" t tr "sm" ft md y br sz ln]).1 =
    ⟨[⟨1, "Various", "", true⟩, ⟨2, "Artist", "", false⟩],
     [⟨1, 2, "Album", false⟩],
     [⟨1, "starting/song.mp3", 2, none, none, none, 1, t, y, parseTrackTag tr,
       "sm", ft, br, md, sz, ln, 5, 5⟩]⟩ := rfl

/-- Evaluation of the Update that sees the song's fingerprint at a new
path: only the stored filename changes. -/
theorem c9_upd_eval (t tr ft md : String) (y br sz ln : Nat) :
    (App.update 9
      (⟨[⟨1, "Various", "", true⟩, ⟨2, "Artist", "", false⟩],
        [⟨1, 2, "Album", false⟩],
        [⟨1, "starting/song.mp3", 2, none, none, none, 1, t, y, parseTrackTag tr,
          "sm", ft, br, md, sz, ln, 5, 5⟩]⟩ : Catalog)
      [scanFileFull "ending/song.mp3" "Artist" "Album" t tr "sm" ft md y br sz ln]).1 =
    ⟨[⟨1, "Various", "", true⟩, ⟨2, "Artist", "", false⟩],
     [⟨1, 2, "Album", false⟩],
     [⟨1, "ending/song.mp3", 2, none, none, none, 1, t, y, parseTrackTag tr,
       "sm", ft, br, md, sz, ln, 5, 5⟩]⟩ := rfl

/-- Claim C9: moving a song's file to a different path without changing
its bytes leaves every song field except the stored filename untouched
(primary key, fingerprint, timestamps, tags and container data included),
and the artist and album rows unchanged (stated over the scenario of
test_update_song_move, for arbitrary tag and container values). -/
theorem claim_c9 (t tr ft md : String) (y br sz ln : Nat) :
    ((App.update 9 (App.add 5 initialCatalog
        [scanFileFull "starting/song.mp3" "Artist" "Album" t tr "sm" ft md y br sz ln]).1
      [scanFileFull "ending/song.mp3" "Artist" "Album" t tr "sm" ft md y br sz ln]).1.songs =
      (App.add 5 initialCatalog
        [scanFileFull "starting/song.mp3" "Artist" "Album" t tr "sm" ft md y br sz ln]).1.songs.map
        (fun s => { s with filename := "ending/song.mp3" })) ∧
    ((App.update 9 (App.add 5 initialCatalog
        [scanFileFull "starting/song.mp3" "Artist" "Album" t tr "sm" ft md y br sz ln]).1
      [scanFileFull "ending/song.mp3" "Artist" "Album" t tr "sm" ft md y br sz ln]).1.albums =
      (App.add 5 initialCatalog
        [scanFileFull "starting/song.mp3" "Artist" "Album" t tr "sm" ft md y br sz ln]).1.albums) ∧
    ((App.update 9 (App.add 5 initialCatalog
        [scanFileFull "starting/song.mp3" "Artist" "Album" t tr "sm" ft md y br sz ln]).1
      [scanFileFull "ending/song.mp3" "Artist" "Album" t tr "sm" ft md y br sz ln]).1.artists =
      (App.add 5 initialCatalog
        [scanFileFull "starting/song.mp3" "Artist" "Album" t tr "sm" ft md y br sz ln]).1.artists) := by
  rw [c9_add_eval, c9_upd_eval]
  exact ⟨rfl, rfl, rfl⟩

end Exordium
